import Mathlib

/-!
# openage `libopenage/unit/unit_type.cpp`

A shallow embedding of `UnitType` and `NyanType`: the attribute-preserving
`reinitialise`, equality on ability sequences, `upgrade`, and the adjacent-tile
placement search `place_beside`.

C++ objects mutated through pointers become explicit state passing.  Calls that
`place_beside` makes into its collaborators (`Terrain::get_chunk`, the virtual
`place`) are recorded in a call log returned next to the result, so that
statements about which calls happen can be made.
-/

namespace openage

/-! ## Coordinates -/

namespace coord

/-- A tile coordinate `coord::tile` (north-east / south-east axes). -/
structure tile where
  ne : Int
  se : Int
deriving DecidableEq, Repr

/-- A tile offset `coord::tile_delta`. -/
structure tile_delta where
  ne : Int
  se : Int
deriving DecidableEq, Repr

/-- A physical-space position `coord::phys3`. -/
structure phys3 where
  ne : Int
  se : Int
  up : Int
deriving DecidableEq, Repr

/-- The `tile - tile_delta` operator. -/
def tile.sub (t : tile) (d : tile_delta) : tile :=
  { ne := t.ne - d.ne, se := t.se - d.se }

/-- The `tile + tile_delta` operator. -/
def tile.add (t : tile) (d : tile_delta) : tile :=
  { ne := t.ne + d.ne, se := t.se + d.se }

end coord

/-- The `tile_range` of a terrain object: the two corners of its tile
footprint and its draw position.  The field `end_` is the C++ member `end`. -/
structure tile_range where
  start : coord.tile
  end_ : coord.tile
  draw : coord.phys3
deriving DecidableEq, Repr

/-- Modelled from the spec: `tile_list` (declared with `tile_range`, not part
of `unit_type.cpp`).  The spec has the scan "enumerate every tile coordinate in
that rectangle in a fixed, deterministic order (stable row-major or
equivalent)", the rectangle running from its minimum corner to its maximum
corner, both included: `(0,0)–(1,1)` is a `2×2` footprint and `(−1,−1)–(2,2)`
holds 16 tiles.  Rows are the `ne` coordinate, columns the `se` coordinate. -/
def tile_list (rng : tile_range) : List coord.tile :=
  (List.range (rng.end_.ne - rng.start.ne + 1).toNat).flatMap fun (i : Nat) =>
    (List.range (rng.end_.se - rng.start.se + 1).toNat).map fun (j : Nat) =>
      { ne := rng.start.ne + (i : Int), se := rng.start.se + (j : Int) }

/-! ## Terrain objects and the placement search -/

/-- The part of a `TerrainObject` that `place_beside` reads from its reference
object: the tile footprint `pos` and the terrain it stands on
(`get_terrain()`), the latter as a handle of type `T`. -/
structure TerrainObject (T : Type) where
  pos : tile_range
  terrain : T

/-- A call made by `place_beside` into a collaborator: a chunk lookup
`terrain->get_chunk(t)` with whether a chunk was found, or a call of the
virtual `place` for tile `t` at the physical position `pos`. -/
inductive Call where
  | get_chunk (t : coord.tile) (found : Bool)
  | place (t : coord.tile) (pos : coord.phys3)
deriving DecidableEq, Repr

/-- The collaborators of `place_beside`, none of which is defined in
`unit_type.cpp`.  `σ` is the mutable world (the unit, the terrain and its
chunks), `U` a unit pointer, `T` a terrain handle and `O` a pointer to a
placed terrain object.
* `tile_list` flattens a tile range into the scan list;
* `get_chunk s terrain t` is `terrain->get_chunk(t) != nullptr` in world `s`;
* `to_phys3 s terrain t` is `t.to_phys3(*terrain)`;
* `place u terrain pos s` is the virtual `this->place(u, terrain, pos)`: the
  placed object (or `none` for `nullptr`) and the world it leaves behind. -/
structure Collaborators (σ U T O : Type) where
  tile_list : tile_range → List coord.tile
  get_chunk : σ → T → coord.tile → Bool
  to_phys3 : σ → T → coord.tile → coord.phys3
  place : U → T → coord.phys3 → σ → Option O × σ

/-- What a call of `place_beside` leaves behind: the returned pointer, the
world after the call and the collaborator calls it made, in order. -/
structure Outcome (σ O : Type) where
  result : Option O
  state : σ
  calls : List Call

/-- The range of possible tiles computed by `place_beside`: the reference
footprint grown by one tile on every side, with the same draw position. -/
def outline_of (pos : tile_range) : tile_range :=
  { start := pos.start.sub { ne := 1, se := 1 },
    end_ := pos.end_.add { ne := 1, se := 1 },
    draw := pos.draw }

/-- The `for` loop of `place_beside` over the remaining tiles of the scan
list. -/
def place_beside_loop {σ U T O : Type} (E : Collaborators σ U T O) (u : U) (terrain : T) :
    List coord.tile → σ → Outcome σ O
  | [], s => { result := none, state := s, calls := [] }
  | temp_pos :: rest, s =>
    if E.get_chunk s terrain temp_pos then
      let pos := E.to_phys3 s terrain temp_pos
      match E.place u terrain pos s with
      | (some placed, s1) =>
        { result := some placed, state := s1,
          calls := [Call.get_chunk temp_pos true, Call.place temp_pos pos] }
      | (none, s1) =>
        let r := place_beside_loop E u terrain rest s1
        { r with calls := Call.get_chunk temp_pos true :: Call.place temp_pos pos :: r.calls }
    else
      let r := place_beside_loop E u terrain rest s
      { r with calls := Call.get_chunk temp_pos false :: r.calls }

/-- `UnitType::place_beside(u, other)`: `none` models a null pointer.  The
members of `this` are not read; the virtual `this->place` is `E.place`. -/
def UnitType.place_beside {σ U T O : Type} (E : Collaborators σ U T O)
    (u : Option U) (other : Option (TerrainObject T)) (s : σ) : Outcome σ O :=
  match u, other with
  | some u, some other =>
    place_beside_loop E u other.terrain (E.tile_list (outline_of other.pos)) s
  | _, _ => { result := none, state := s, calls := [] }

/-! ### Vocabulary for statements about the scan -/

/-- One turn of the loop seen from outside: what `place` returns for tile `t`
in world `s` when the tile has a chunk, and `none` when it has none (the tile
is skipped). -/
def attempt {σ U T O : Type} (E : Collaborators σ U T O) (u : U) (terrain : T)
    (s : σ) (t : coord.tile) : Option O :=
  if E.get_chunk s terrain t then (E.place u terrain (E.to_phys3 s terrain t) s).1 else none

/-- The world after one turn of the loop on tile `t`: unchanged when the tile
has no chunk, otherwise what the `place` call leaves behind. -/
def after_attempt {σ U T O : Type} (E : Collaborators σ U T O) (u : U) (terrain : T)
    (s : σ) (t : coord.tile) : σ :=
  if E.get_chunk s terrain t then (E.place u terrain (E.to_phys3 s terrain t) s).2 else s

/-- The world in which the scan reaches the tile that follows `tiles`, when it
gets that far. -/
def world_after {σ U T O : Type} (E : Collaborators σ U T O) (u : U) (terrain : T)
    (tiles : List coord.tile) (s : σ) : σ :=
  tiles.foldl (after_attempt E u terrain) s

/-- The scan list of `place_beside` for the reference object `other`:
`tile_list(outline)`. -/
def scan_list {σ U T O : Type} (E : Collaborators σ U T O) (other : TerrainObject T) :
    List coord.tile :=
  E.tile_list (outline_of other.pos)

/-- The world in which the scan reaches the tile of index `i` of the scan
list, when it gets that far. -/
def scan_world {σ U T O : Type} (E : Collaborators σ U T O) (u : U)
    (other : TerrainObject T) (s : σ) (i : Nat) : σ :=
  world_after E u other.terrain ((scan_list E other).take i) s

/-- The tiles whose chunk was looked up, in call order. -/
def visited (calls : List Call) : List coord.tile :=
  calls.filterMap fun c =>
    match c with
    | Call.get_chunk t _ => some t
    | Call.place _ _ => none

/-- The tiles for which `place` was called, in call order. -/
def place_calls (calls : List Call) : List coord.tile :=
  calls.filterMap fun c =>
    match c with
    | Call.get_chunk _ _ => none
    | Call.place t _ => some t

/-! ## Attributes -/

/-- An attribute type tag (`attr_type`): attributes are looked up by it. -/
abbrev attr_type := Nat

/-- Modelled from the spec: `AttributeContainer`, one attribute entry (class
not part of `unit_type.cpp`).  The spec has "each entry is tagged shared or
unshared" and entries carry a value, as in "unshared `health = 7`". -/
structure AttributeContainer where
  type : attr_type
  shared : Bool
  value : Int
deriving DecidableEq, Repr

/-- Modelled from the spec: the copy made of an unshared entry when it is
merged into another container; a value copy. -/
def AttributeContainer.copy (attr : AttributeContainer) : AttributeContainer :=
  { type := attr.type, shared := attr.shared, value := attr.value }

/-- Modelled from the spec: `Attributes`, the attribute container of a unit or
of a unit type (class not part of `unit_type.cpp`): the contributions it has
received, oldest first.  The spec has that a contribution is appended and
never dropped, and that a later entry overwrites what was written before for
the same attribute; the entry in force for an attribute is the latest one, see
`Attributes.get`. -/
structure Attributes where
  attrs : List AttributeContainer
deriving DecidableEq, Repr

/-- A default-constructed, empty `Attributes`. -/
def Attributes.empty : Attributes :=
  { attrs := [] }

/-- Modelled from the spec: `Attributes::add`, which "appends one
contribution". -/
def Attributes.add (self : Attributes) (attr : AttributeContainer) : Attributes :=
  { attrs := self.attrs ++ [attr] }

/-- Modelled from the spec: the entries of a run of contributions that are in
force, oldest first: an entry is in force when no later entry is for the same
attribute.  These are the "current" values of the container. -/
def in_force : List AttributeContainer → List AttributeContainer
  | [] => []
  | attr :: later =>
    if later.any (fun b => b.type == attr.type) then in_force later
    else attr :: in_force later

/-- Modelled from the spec: the current entries of a container, one for each
attribute it has an entry for. -/
def Attributes.current (self : Attributes) : List AttributeContainer :=
  in_force self.attrs

/-- Modelled from the spec: `Attributes::add_copies(other, shared, unshared)`,
the copy "with shared/unshared copy semantics" that `reinitialise` uses to
"snapshot the entity's current unshared attribute values only": every current
entry of `other` of a selected sort is added, a shared one as it is and an
unshared one as a copy; nothing is removed.  The call
`add_copies(attrs, false, true)` of `reinitialise` has the comment "copy only
unshared". -/
def Attributes.add_copies (self other : Attributes) (shared unshared : Bool) : Attributes :=
  other.current.foldl
    (fun acc attr =>
      if attr.shared then
        if shared then acc.add attr else acc
      else
        if unshared then acc.add attr.copy else acc)
    self

/-- Modelled from the spec: `Attributes::add_copies(other)` with one argument,
the "additive merge" that "never clears pre-existing entries": every
contribution `other` has received is added, oldest first, a shared one as it
is and an unshared one as a copy, so that the entries in force in `other` come
to be in force here. -/
def Attributes.add_copies_all (self other : Attributes) : Attributes :=
  other.attrs.foldl
    (fun acc attr => if attr.shared then acc.add attr else acc.add attr.copy)
    self

/-- Modelled from the spec: the entry in force for attribute `t`, the one added
last: the spec has a re-applied entry "overwriting whatever `initialise` just
wrote" for it. -/
def Attributes.get (self : Attributes) (t : attr_type) : Option AttributeContainer :=
  self.attrs.reverse.find? fun attr => attr.type == t

/-! ## Units -/

/-- An ability handle (`std::shared_ptr<UnitAbility>`): two handles are equal
when they point to the same ability object. -/
abbrev UnitAbility := Nat

/-- The actions this file pushes on a unit: the `IdleAction`; `other` stands
for any action pushed elsewhere. -/
inductive UnitAction where
  | idle
  | other (n : Nat)
deriving DecidableEq, Repr

/-- Modelled from the spec: the members of a `Unit` that unit types write
(class not part of `unit_type.cpp`): the back-reference to its type (the
address of the type object), its attributes, the abilities it was given, its
action stack (bottom first, each action with the flag it was pushed with) and
its location object, of a type `L`. -/
structure Unit (L : Type) where
  unit_type : Option Nat
  attributes : Attributes
  ability_available : List UnitAbility
  action_stack : List (UnitAction × Bool)
  location : Option L

/-- Modelled from the spec: `Unit::reset`, which "fully resets the entity's
existing ability/behavior state"; the call in `NyanType::initialise` has the
comment "removes all actions and abilities". -/
def Unit.reset {L : Type} (unit : Unit L) : Unit L :=
  { unit with ability_available := [], action_stack := [] }

/-- Modelled from the spec: `Unit::give_ability`, which grants one ability;
abilities are granted "in order". -/
def Unit.give_ability {L : Type} (unit : Unit L) (ability : UnitAbility) : Unit L :=
  { unit with ability_available := unit.ability_available ++ [ability] }

/-- Modelled from the spec: `Unit::add_attributes`, the "additive merge" of a
container into the unit's attributes. -/
def Unit.add_attributes {L : Type} (unit : Unit L) (attr : Attributes) : Unit L :=
  { unit with attributes := unit.attributes.add_copies_all attr }

/-- Modelled from the spec: `Unit::push_action(action, flag)`, which pushes an
action "onto the entity's behavior stack"; the flag is kept with it. -/
def Unit.push_action {L : Type} (unit : Unit L) (action : UnitAction) (flag : Bool) : Unit L :=
  { unit with action_stack := unit.action_stack ++ [(action, flag)] }

/-! ## Unit types -/

/-- The data members of a `UnitType`, with the object's address `addr` (the
value of `this`) and the values of its pure-virtual accessors `id()`,
`parent_id()` and `name()`.  `owner` is a handle of the owning player and
`graphics` maps a graphic type to a texture handle. -/
structure UnitType where
  addr : Nat
  owner : Nat
  have_limit : Int
  had_limit : Int
  default_attributes : Attributes
  type_abilities : List UnitAbility
  graphics : List (Nat × Nat)
  id : Int
  parent_id : Int
  name : String
deriving DecidableEq, Repr

/-- `UnitType::reinitialise(unit, player)`; `initialise` is the virtual
`this->initialise`, which may change the unit and the player of type `P`. -/
def UnitType.reinitialise {L P : Type} (initialise : Unit L → P → Unit L × P)
    (unit : Unit L) (player : P) : Unit L × P :=
  -- copy only unshared
  let tmp := Attributes.empty.add_copies unit.attributes false true
  -- initialise the new unit
  let r := initialise unit player
  -- replace new unshared attributes with the old
  ({ r.1 with attributes := r.1.attributes.add_copies_all tmp }, r.2)

/-- `UnitType::operator==`: the comparison of the two ability vectors, which
is element by element after a comparison of their sizes. -/
def UnitType.eq (self other : UnitType) : Bool :=
  self.type_abilities == other.type_abilities

/-- `UnitType::operator!=`. -/
def UnitType.ne (self other : UnitType) : Bool :=
  !(self.eq other)

/-- `UnitType::copy_attributes(unit)`. -/
def UnitType.copy_attributes {L : Type} (self : UnitType) (unit : Unit L) : Unit L :=
  unit.add_attributes self.default_attributes

/-- `UnitType::upgrade(attr)`. -/
def UnitType.upgrade (self : UnitType) (attr : AttributeContainer) : UnitType :=
  { self with default_attributes := self.default_attributes.add attr }

/-- Modelled from the spec: `math::INT_INF` (constant not part of
`unit_type.cpp`), the "explicit unbounded sentinel" of the population limits:
the largest value of an `int`. -/
def math.INT_INF : Int := 2147483647

/-- The constructor `UnitType::UnitType(owner)`: it sets the owner and both
limits; the containers start empty.  The address of the new object and the
values of the pure-virtual accessors come from the concrete type. -/
def UnitType.new (addr owner : Nat) (id parent_id : Int) (name : String) : UnitType :=
  { addr := addr, owner := owner,
    have_limit := math.INT_INF, had_limit := math.INT_INF,
    default_attributes := Attributes.empty, type_abilities := [], graphics := [],
    id := id, parent_id := parent_id, name := name }

/-- The constructor `NyanType::NyanType(owner)` with the accessors
`NyanType::id`, `NyanType::parent_id` and `NyanType::name`. -/
def NyanType.new (addr owner : Nat) : UnitType :=
  UnitType.new addr owner 1 (-1) "Nyan"

/-- `NyanType::initialise(unit, player)`; the player is not used. -/
def NyanType.initialise {L P : Type} (self : UnitType) (unit : Unit L) (player : P) :
    Unit L × P :=
  -- removes all actions and abilities
  let unit := unit.reset
  -- initialise unit
  let unit := { unit with unit_type := some self.addr }
  -- the abilities which are given to the unit
  let unit := self.type_abilities.foldl (fun un ability => un.give_ability ability) unit
  -- copy all attributes
  let unit := self.copy_attributes unit
  -- give idle action
  (unit.push_action UnitAction.idle true, player)

/-- `UnitType::parent_type()`; `get_type owner id` is the lookup
`owner.get_type(id)` of the owning player, which returns a pointer to a unit
type or `none` for a null pointer. -/
def UnitType.parent_type {R : Type} (get_type : Nat → Int → Option R) (self : UnitType) :
    Option R :=
  get_type self.owner self.parent_id

/-! ## Placement by the root type -/

/-- The states of a terrain object (`object_state`); this file names `placed`
only, `other` stands for the remaining ones. -/
inductive object_state where
  | placed
  | other (n : Nat)
deriving DecidableEq, Repr

/-- Modelled from the spec: the location object of a unit, a `SquareObject`
(class not part of `unit_type.cpp`): a "square spatial footprint" of a size in
tiles, with a "passability predicate" on physical positions and, once it
stands somewhere, the terrain, position and state it was placed with. -/
structure SquareObject (T : Type) where
  size : coord.tile_delta
  passable : coord.phys3 → Bool
  placement : Option (T × coord.phys3 × object_state)

/-- Modelled from the spec: a newly constructed `SquareObject(size)`: it stands
nowhere; its predicate is assigned by the caller before it is used. -/
def SquareObject.new {T : Type} (size : coord.tile_delta) : SquareObject T :=
  { size := size, passable := fun _ => false, placement := none }

/-- Modelled from the spec: `Unit::make_location<SquareObject>(size)`, which
"constructs a fixed ... square spatial footprint for the entity": the location
of the unit becomes a new square object of that size. -/
def Unit.make_location {T : Type} (unit : Unit (SquareObject T)) (size : coord.tile_delta) :
    Unit (SquareObject T) :=
  { unit with location := some (SquareObject.new size) }

/-- What `NyanType::place` works on: the unit behind the pointer `unit`, the
terrain (its chunks and objects, of a type `W`) and the debug log. -/
structure World (T W : Type) where
  unit : Unit (SquareObject T)
  terrain : W
  log : List String

/-- `NyanType::place(unit, terrain, init_pos)`.  `commit` is the method
`TerrainObject::place(terrain, pos, state)` called on the location object,
which is not defined in `unit_type.cpp`: it answers whether the object was
placed and leaves the object and the terrain as it wrote them. -/
def NyanType.place {T W : Type}
    (commit : SquareObject T → T → coord.phys3 → object_state → W → Bool × SquareObject T × W)
    (terrain : T) (init_pos : coord.phys3) (w : World T W) :
    Option (SquareObject T) × World T W :=
  let unit := w.unit.make_location { ne := 1, se := 1 }
  match unit.location with
  | none => (none, { w with unit := unit })
  | some location =>
    -- allow unit to go anywhere
    let location := { location with passable := fun _ => true }
    -- try to place the obj, it knows best whether it will fit.
    let r := commit location terrain init_pos object_state.placed w.terrain
    let w1 : World T W :=
      { unit := { unit with location := some r.2.1 }, terrain := r.2.2, log := w.log }
    if r.1 then
      (some r.2.1, w1)
    else
      -- placing at the given position failed
      (none, { w1 with log := w1.log ++ ["failed to place object"] })

/-- The collaborators of `place_beside` for the root type: the virtual `place`
is `NyanType::place`, the chunk lookup and the coordinate conversion read the
terrain.  There is one unit, the one of the world, so the unit pointer carries
nothing. -/
def NyanType.collaborators {T W : Type}
    (tile_list : tile_range → List coord.tile)
    (get_chunk : W → T → coord.tile → Bool)
    (to_phys3 : W → T → coord.tile → coord.phys3)
    (commit : SquareObject T → T → coord.phys3 → object_state → W → Bool × SquareObject T × W) :
    Collaborators (World T W) PUnit T (SquareObject T) :=
  { tile_list := tile_list,
    get_chunk := fun w terrain t => get_chunk w.terrain terrain t,
    to_phys3 := fun w terrain t => to_phys3 w.terrain terrain t,
    place := fun _ terrain pos w => NyanType.place commit terrain pos w }

/-- The object `NyanType::place` hands to the placement: a new `1×1` square
whose predicate accepts every position. -/
def NyanType.location_tried {T : Type} : SquareObject T :=
  { size := { ne := 1, se := 1 }, passable := fun _ => true, placement := none }

/-! ## Types and units side by side -/

/-- The unit types and the units of a game, each object under its address.
A unit type and a unit are separate objects: the unit keeps its own attribute
container and refers to its type by address only (`Unit.unit_type`). -/
structure Game (L : Type) where
  types : Nat → Option UnitType
  units : Nat → Option (Unit L)

/-- The call `upgrade(attr)` on the unit type at address `ty`. -/
def Game.upgrade {L : Type} (g : Game L) (ty : Nat) (attr : AttributeContainer) : Game L :=
  match g.types ty with
  | some t =>
    { g with types := fun a => if a = ty then some (t.upgrade attr) else g.types a }
  | none => g

/-- The call `copy_attributes(unit)` on the unit type at address `ty` for the
unit at address `u`. -/
def Game.copy_attributes {L : Type} (g : Game L) (ty u : Nat) : Game L :=
  match g.types ty, g.units u with
  | some t, some un =>
    { g with units := fun a => if a = u then some (t.copy_attributes un) else g.units a }
  | _, _ => g

/-- The call `initialise(unit, player)` on the root type at address `ty` for
the unit at address `u`. -/
def Game.initialise {L P : Type} (g : Game L) (ty u : Nat) (player : P) : Game L × P :=
  match g.types ty, g.units u with
  | some t, some un =>
    ({ g with
        units := fun a =>
          if a = u then some (NyanType.initialise t un player).1 else g.units a },
      (NyanType.initialise t un player).2)
  | _, _ => (g, player)

/-- The call `reinitialise(unit, player)` on the root type at address `ty` for
the unit at address `u`. -/
def Game.reinitialise {L P : Type} (g : Game L) (ty u : Nat) (player : P) : Game L × P :=
  match g.types ty, g.units u with
  | some t, some un =>
    ({ g with
        units := fun a =>
          if a = u then some (UnitType.reinitialise (NyanType.initialise t) un player).1
          else g.units a },
      (UnitType.reinitialise (NyanType.initialise t) un player).2)
  | _, _ => (g, player)

/-! ## A small world for examples -/

/-- An example set of collaborators.  The world is the number of `place`
calls made so far; the scan list is the modelled `tile_list`; a tile has a
chunk when its `se` coordinate is not negative; `place` succeeds on the
positions of the row `ne = 2`, returning the position as the placed object. -/
def demo_world : Collaborators Nat Nat Nat coord.phys3 where
  tile_list := tile_list
  get_chunk := fun _ _ t => decide (0 ≤ t.se)
  to_phys3 := fun _ _ t => { ne := t.ne, se := t.se, up := 0 }
  place := fun _ _ pos s => (if pos.ne = 2 then some pos else none, s + 1)

/-- An example world without any chunk. -/
def demo_void : Collaborators Nat Nat Nat coord.phys3 where
  tile_list := tile_list
  get_chunk := fun _ _ _ => false
  to_phys3 := fun _ _ t => { ne := t.ne, se := t.se, up := 0 }
  place := fun _ _ pos s => (some pos, s + 1)

/-- An example reference object with the footprint `(0,0)–(1,1)`. -/
def demo_other : TerrainObject Nat :=
  { pos := { start := { ne := 0, se := 0 }, end_ := { ne := 1, se := 1 },
             draw := { ne := 0, se := 0, up := 0 } },
    terrain := 0 }

/-- An example unit: unshared `health = 7` (attribute 0), shared `armor = 5`
(attribute 1), one ability and one action from an earlier type. -/
def demo_unit : Unit Nat :=
  { unit_type := some 50,
    attributes := { attrs := [{ type := 0, shared := false, value := 7 },
                              { type := 1, shared := true, value := 5 }] },
    ability_available := [9],
    action_stack := [(UnitAction.other 3, false)],
    location := none }

/-- An example type whose defaults omit `health` and `armor`: they hold shared
`speed = 3` (attribute 2) only. -/
def demo_type : UnitType :=
  { NyanType.new 100 0 with
    default_attributes := { attrs := [{ type := 2, shared := true, value := 3 }] },
    type_abilities := [1, 2] }

/-- An example type whose defaults write shared `health = 100`. -/
def demo_type_health : UnitType :=
  { NyanType.new 101 0 with
    default_attributes := { attrs := [{ type := 0, shared := true, value := 100 }] },
    type_abilities := [2, 1] }

/-- An example placement: the object fits on the positions of the row
`ne = 2` and is then placed there; the terrain is a counter of the attempts. -/
def demo_commit (obj : SquareObject Nat) (terrain : Nat) (pos : coord.phys3)
    (state : object_state) (w : Nat) : Bool × SquareObject Nat × Nat :=
  if pos.ne = 2 then
    (true, { obj with placement := some (terrain, pos, state) }, w + 1)
  else
    (false, obj, w + 1)

/-- An example placement on which nothing ever fits. -/
def demo_commit_never (obj : SquareObject Nat) (_terrain : Nat) (_pos : coord.phys3)
    (_state : object_state) (w : Nat) : Bool × SquareObject Nat × Nat :=
  (false, obj, w + 1)

/-- An example world for `NyanType::place`: a unit that stands on a `3×3`
location placed earlier at `(9,9,0)`, a terrain that has seen no attempt and
an empty log. -/
def demo_nyan_world : World Nat Nat :=
  { unit :=
      { unit_type := some 50,
        attributes := { attrs := [{ type := 0, shared := false, value := 7 }] },
        ability_available := [9],
        action_stack := [],
        location := some
          { size := { ne := 3, se := 3 }, passable := fun _ => false,
            placement := some (0, { ne := 9, se := 9, up := 0 }, object_state.placed) } },
    terrain := 0,
    log := [] }

/-- The collaborators of the root type on the example terrain: the modelled
`tile_list`, a chunk under every tile, and a placement given as parameter. -/
def demo_nyan (commit : SquareObject Nat → Nat → coord.phys3 → object_state → Nat
    → Bool × SquareObject Nat × Nat) :
    Collaborators (World Nat Nat) PUnit Nat (SquareObject Nat) :=
  NyanType.collaborators tile_list (fun _ _ _ => true)
    (fun _ _ t => { ne := t.ne, se := t.se, up := 0 }) commit

/-- A second example reference object with the footprint of `demo_other`, on
another terrain handle. -/
def demo_other_far : TerrainObject Nat :=
  { pos := demo_other.pos, terrain := 7 }

/-- An example unit in which an unshared `health = 7` has been overwritten by
the shared default `health = 100`: the example unit after `copy_attributes`
by the type that writes `health`. -/
def demo_unit_merged : Unit Nat :=
  demo_type_health.copy_attributes demo_unit

/-! # Theorems -/

/-! ## The placement search -/

section scan

variable {σ U T O : Type} (E : Collaborators σ U T O) (u : U) (terrain : T)

theorem world_after_cons (a : coord.tile) (l : List coord.tile) (s : σ) :
    world_after E u terrain (a :: l) s
      = world_after E u terrain l (after_attempt E u terrain s a) := rfl

theorem visited_append (c d : List Call) : visited (c ++ d) = visited c ++ visited d := by
  simp [visited, List.filterMap_append]

theorem place_calls_append (c d : List Call) :
    place_calls (c ++ d) = place_calls c ++ place_calls d := by
  simp [place_calls, List.filterMap_append]

theorem visited_map_miss (l : List coord.tile) :
    visited (l.map fun t => Call.get_chunk t false) = l := by
  induction l with
  | nil => rfl
  | cons a l ih =>
    simp only [visited, List.map_cons, List.filterMap_cons] at ih ⊢
    rw [ih]

theorem place_calls_map_miss (l : List coord.tile) :
    place_calls (l.map fun t => Call.get_chunk t false) = [] := by
  induction l with
  | nil => rfl
  | cons a l ih =>
    simp only [place_calls, List.map_cons, List.filterMap_cons] at ih ⊢
    rw [ih]

/-- A prefix of tiles on each of which the attempt fails is walked through:
the loop then behaves on the rest as if started there, in the world the prefix
leaves behind, and has looked up each tile of the prefix once, in order. -/
theorem place_beside_loop_failed_prefix (pre rest : List coord.tile) (s : σ)
    (h : ∀ j tj, pre[j]? = some tj →
      attempt E u terrain (world_after E u terrain (pre.take j) s) tj = none) :
    (place_beside_loop E u terrain (pre ++ rest) s).result
        = (place_beside_loop E u terrain rest (world_after E u terrain pre s)).result ∧
    (place_beside_loop E u terrain (pre ++ rest) s).state
        = (place_beside_loop E u terrain rest (world_after E u terrain pre s)).state ∧
    ∃ c, (place_beside_loop E u terrain (pre ++ rest) s).calls
        = c ++ (place_beside_loop E u terrain rest (world_after E u terrain pre s)).calls ∧
      visited c = pre ∧ (place_calls c).Sublist pre := by
  induction pre generalizing s with
  | nil => exact ⟨rfl, rfl, [], rfl, rfl, List.Sublist.refl _⟩
  | cons a pre ih =>
    have h0 : attempt E u terrain s a = none := h 0 a (by simp)
    have hrest : ∀ j tj, pre[j]? = some tj →
        attempt E u terrain
          (world_after E u terrain (pre.take j) (after_attempt E u terrain s a)) tj = none := by
      intro j tj hj
      have := h (j + 1) tj (by simpa using hj)
      simpa [world_after_cons] using this
    obtain ⟨ih1, ih2, c, ih3, ih4, ih5⟩ := ih (after_attempt E u terrain s a) hrest
    rw [world_after_cons]
    by_cases hc : E.get_chunk s terrain a = true
    · have hp : (E.place u terrain (E.to_phys3 s terrain a) s).1 = none := by
        simpa [attempt, hc] using h0
      have hs : after_attempt E u terrain s a
          = (E.place u terrain (E.to_phys3 s terrain a) s).2 := by
        simp [after_attempt, hc]
      rcases hpl : E.place u terrain (E.to_phys3 s terrain a) s with ⟨r1, s1⟩
      rw [hpl] at hp hs
      simp only at hp hs
      subst hp
      rw [hs] at ih1 ih2 ih3 ⊢
      simp only [List.cons_append, place_beside_loop, hc, if_true, hpl]
      refine ⟨ih1, ih2, Call.get_chunk a true :: Call.place a (E.to_phys3 s terrain a) :: c,
        ?_, ?_, ?_⟩
      · simp [ih3]
      · simp [visited, List.filterMap_cons] at ih4 ⊢
        exact ih4
      · simp [place_calls, List.filterMap_cons] at ih5 ⊢
        exact ih5
    · have hs : after_attempt E u terrain s a = s := by
        simp [after_attempt, hc]
      rw [hs] at ih1 ih2 ih3 ⊢
      simp only [List.cons_append, place_beside_loop, hc]
      refine ⟨ih1, ih2, Call.get_chunk a false :: c, ?_, ?_, ?_⟩
      · simp [ih3]
      · simp [visited, List.filterMap_cons] at ih4 ⊢
        exact ih4
      · simp [place_calls, List.filterMap_cons] at ih5 ⊢
        exact List.Sublist.cons _ ih5

/-- The loop on a tile that has a chunk and on which `place` succeeds. -/
theorem place_beside_loop_hit (t : coord.tile) (rest : List coord.tile) (s s1 : σ) (placed : O)
    (hc : E.get_chunk s terrain t = true)
    (hp : E.place u terrain (E.to_phys3 s terrain t) s = (some placed, s1)) :
    place_beside_loop E u terrain (t :: rest) s
      = { result := some placed, state := s1,
          calls := [Call.get_chunk t true, Call.place t (E.to_phys3 s terrain t)] } := by
  simp only [place_beside_loop, hc, if_true, hp]

theorem attempt_isSome (s : σ) (t : coord.tile)
    (h : (attempt E u terrain s t).isSome = true) :
    E.get_chunk s terrain t = true ∧
      ∃ placed, E.place u terrain (E.to_phys3 s terrain t) s
        = (some placed, after_attempt E u terrain s t) := by
  by_cases hc : E.get_chunk s terrain t = true
  · refine ⟨hc, ?_⟩
    simp only [attempt, hc, if_true] at h
    obtain ⟨placed, hpl⟩ := Option.isSome_iff_exists.mp h
    refine ⟨placed, ?_⟩
    simp only [after_attempt, hc, if_true]
    exact Prod.ext hpl rfl
  · simp [attempt, hc] at h

/-- The loop over tiles none of which has a chunk: every tile is looked up,
`place` is never called and the world is left as it was. -/
theorem place_beside_loop_no_chunk (tiles : List coord.tile) (s : σ)
    (h : ∀ t ∈ tiles, E.get_chunk s terrain t = false) :
    place_beside_loop E u terrain tiles s
      = { result := none, state := s,
          calls := tiles.map fun t => Call.get_chunk t false } := by
  induction tiles with
  | nil => rfl
  | cons a rest ih =>
    have ha : E.get_chunk s terrain a = false := h a (List.mem_cons_self _ _)
    have hr := ih fun t ht => h t (List.mem_cons_of_mem _ ht)
    simp only [place_beside_loop, ha, hr, List.map_cons]
    rfl

/-- In the call log of the loop a `place` call comes right after the chunk
lookup of the same tile, and that lookup found a chunk. -/
theorem place_beside_loop_place_after_chunk (tiles : List coord.tile) (s : σ)
    (l1 l2 : List Call) (t : coord.tile) (p : coord.phys3)
    (h : (place_beside_loop E u terrain tiles s).calls = l1 ++ Call.place t p :: l2) :
    ∃ l0, l1 = l0 ++ [Call.get_chunk t true] := by
  induction tiles generalizing s l1 with
  | nil =>
    simp [place_beside_loop] at h
  | cons a rest ih =>
    by_cases hc : E.get_chunk s terrain a = true
    · rcases hpl : E.place u terrain (E.to_phys3 s terrain a) s with ⟨r1, s1⟩
      cases r1 with
      | some placed =>
        simp only [place_beside_loop, hc, if_true, hpl] at h
        rcases l1 with _ | ⟨x, l1⟩
        · simp at h
        · rcases l1 with _ | ⟨y, l1⟩
          · simp at h
            obtain ⟨hx, ⟨ht, _⟩, _⟩ := h
            exact ⟨[], by simp [← hx, ht]⟩
          · simp at h
      | none =>
        simp only [place_beside_loop, hc, if_true, hpl] at h
        rcases l1 with _ | ⟨x, l1⟩
        · simp at h
        · rcases l1 with _ | ⟨y, l1⟩
          · simp at h
            obtain ⟨hx, ⟨ht, _⟩, _⟩ := h
            exact ⟨[], by simp [← hx, ht]⟩
          · simp only [List.cons_append, List.cons.injEq] at h
            obtain ⟨hx, hy, h⟩ := h
            obtain ⟨l0, hl0⟩ := ih s1 l1 h
            exact ⟨x :: y :: l0, by simp [hl0]⟩
    · have hc1 : E.get_chunk s terrain a = false := by simpa using hc
      simp only [place_beside_loop, hc1, Bool.false_eq_true, if_false] at h
      rcases l1 with _ | ⟨x, l1⟩
      · simp at h
      · simp only [List.cons_append, List.cons.injEq] at h
        obtain ⟨hx, h⟩ := h
        obtain ⟨l0, hl0⟩ := ih s l1 h
        exact ⟨x :: l0, by simp [hl0]⟩

end scan

/-- When some attempt of the scan succeeds there is a first one, and it decides
the outcome of `place_beside`. -/
theorem place_beside_scan_hit {σ U T O : Type} (E : Collaborators σ U T O) (u : U)
    (other : TerrainObject T) (s : σ)
    (h : ∃ i t, (scan_list E other)[i]? = some t ∧
      (attempt E u other.terrain (scan_world E u other s i) t).isSome = true) :
    ∃ k t placed,
      (scan_list E other)[k]? = some t ∧
      (∀ j tj, j < k → (scan_list E other)[j]? = some tj →
        attempt E u other.terrain (scan_world E u other s j) tj = none) ∧
      E.get_chunk (scan_world E u other s k) other.terrain t = true ∧
      E.place u other.terrain (E.to_phys3 (scan_world E u other s k) other.terrain t)
          (scan_world E u other s k)
        = (some placed, (UnitType.place_beside E (some u) (some other) s).state) ∧
      (UnitType.place_beside E (some u) (some other) s).result = some placed ∧
      visited (UnitType.place_beside E (some u) (some other) s).calls
        = (scan_list E other).take (k + 1) := by
  classical
  have hex : ∃ i, ∃ t, (scan_list E other)[i]? = some t ∧
      (attempt E u other.terrain (scan_world E u other s i) t).isSome = true := h
  obtain ⟨t, hk, hsome⟩ := Nat.find_spec hex
  have hmin : ∀ j tj, j < Nat.find hex → (scan_list E other)[j]? = some tj →
      attempt E u other.terrain (scan_world E u other s j) tj = none := by
    intro j tj hj htj
    have := Nat.find_min hex hj
    rw [← Option.not_isSome_iff_eq_none]
    intro hs
    exact this ⟨tj, htj, hs⟩
  generalize Nat.find hex = k at hk hsome hmin
  have hlt : k < (scan_list E other).length := (List.getElem?_eq_some.mp hk).1
  have hsplit : scan_list E other
      = (scan_list E other).take k ++ t :: (scan_list E other).drop (k + 1) := by
    have h1 := (List.take_append_drop k (scan_list E other)).symm
    have h2 : (scan_list E other).drop k = t :: (scan_list E other).drop (k + 1) := by
      rw [List.drop_eq_getElem_cons hlt]
      congr 1
      exact (List.getElem?_eq_some.mp hk).2
    rw [h2] at h1
    exact h1
  have hpre : ∀ j tj, ((scan_list E other).take k)[j]? = some tj →
      attempt E u other.terrain
        (world_after E u other.terrain (((scan_list E other).take k).take j) s) tj = none := by
    intro j tj hj
    have hjk : j < k := by
      have := (List.getElem?_eq_some.mp hj).1
      simp at this
      omega
    have htj : (scan_list E other)[j]? = some tj := by
      rw [List.getElem?_take_of_lt hjk] at hj
      exact hj
    have := hmin j tj hjk htj
    rw [List.take_take, Nat.min_eq_left (Nat.le_of_lt hjk)]
    exact this
  obtain ⟨hc, placed, hpl⟩ := attempt_isSome E u other.terrain _ _ hsome
  obtain ⟨l1, l2, c, l3, l4, _⟩ :=
    place_beside_loop_failed_prefix E u other.terrain ((scan_list E other).take k)
      (t :: (scan_list E other).drop (k + 1)) s hpre
  rw [← hsplit] at l1 l2 l3
  have hhit := place_beside_loop_hit E u other.terrain t ((scan_list E other).drop (k + 1))
    (scan_world E u other s k) _ placed hc hpl
  have hpb : UnitType.place_beside E (some u) (some other) s
      = place_beside_loop E u other.terrain (scan_list E other) s := rfl
  change place_beside_loop E u other.terrain
      (t :: (scan_list E other).drop (k + 1)) (scan_world E u other s k) = _ at hhit
  rw [show world_after E u other.terrain ((scan_list E other).take k) s
      = scan_world E u other s k from rfl] at l1 l2 l3
  rw [hhit] at l1 l2 l3
  refine ⟨k, t, placed, hk, hmin, hc, ?_, ?_, ?_⟩
  · rw [hpb, l2]
    exact hpl
  · rw [hpb, l1]
  · rw [hpb, l3, visited_append, l4]
    rw [List.take_succ, hk]
    simp [visited]

/-- When every attempt of the scan fails, `place_beside` returns nothing after
having looked up every tile of the scan list. -/
theorem place_beside_scan_miss {σ U T O : Type} (E : Collaborators σ U T O) (u : U)
    (other : TerrainObject T) (s : σ)
    (h : ∀ i t, (scan_list E other)[i]? = some t →
      attempt E u other.terrain (scan_world E u other s i) t = none) :
    (UnitType.place_beside E (some u) (some other) s).result = none ∧
    (UnitType.place_beside E (some u) (some other) s).state
      = world_after E u other.terrain (scan_list E other) s ∧
    visited (UnitType.place_beside E (some u) (some other) s).calls = scan_list E other ∧
    (place_calls (UnitType.place_beside E (some u) (some other) s).calls).Sublist (scan_list E other) := by
  obtain ⟨l1, l2, c, l3, l4, l5⟩ :=
    place_beside_loop_failed_prefix E u other.terrain (scan_list E other) [] s h
  rw [List.append_nil] at l1 l2 l3
  have hpb : UnitType.place_beside E (some u) (some other) s
      = place_beside_loop E u other.terrain (scan_list E other) s := rfl
  simp only [place_beside_loop, List.append_nil] at l1 l2 l3
  rw [hpb]
  exact ⟨l1, l2, by rw [l3]; exact l4, by rw [l3]; exact l5⟩

/-- C1 (first fit): when some tile of the scan list has a chunk and `place`
succeeds on it in the world the scan reaches it in, there is a first such tile
`t` of index `k` (every attempt before it fails), and `place_beside` returns
exactly the object `place` returns at `t`, leaves the world that call leaves,
and has looked up the tiles up to `t` and none after it. -/
theorem place_beside_first_fit {σ U T O : Type} (E : Collaborators σ U T O) (u : U)
    (other : TerrainObject T) (s : σ)
    (h : ∃ i t, (scan_list E other)[i]? = some t ∧
      (attempt E u other.terrain (scan_world E u other s i) t).isSome = true) :
    ∃ k t placed,
      (scan_list E other)[k]? = some t ∧
      (∀ j tj, j < k → (scan_list E other)[j]? = some tj →
        attempt E u other.terrain (scan_world E u other s j) tj = none) ∧
      E.get_chunk (scan_world E u other s k) other.terrain t = true ∧
      E.place u other.terrain (E.to_phys3 (scan_world E u other s k) other.terrain t)
          (scan_world E u other s k)
        = (some placed, (UnitType.place_beside E (some u) (some other) s).state) ∧
      (UnitType.place_beside E (some u) (some other) s).result = some placed ∧
      visited (UnitType.place_beside E (some u) (some other) s).calls
        = (scan_list E other).take (k + 1) :=
  place_beside_scan_hit E u other s h

/-- C1, at an input: in the example world the tiles `(2,0)`, `(2,1)` and
`(2,2)` all have a chunk and would all take the unit; the scan stops at the
first of them. -/
theorem place_beside_first_fit_witness :
    (UnitType.place_beside demo_world (some 0) (some demo_other) 0).result
      = some { ne := 2, se := 0, up := 0 } ∧
    ∃ k t placed,
      (scan_list demo_world demo_other)[k]? = some t ∧
      (∀ j tj, j < k → (scan_list demo_world demo_other)[j]? = some tj →
        attempt demo_world 0 demo_other.terrain (scan_world demo_world 0 demo_other 0 j) tj
          = none) ∧
      demo_world.get_chunk (scan_world demo_world 0 demo_other 0 k) demo_other.terrain t = true ∧
      demo_world.place 0 demo_other.terrain
          (demo_world.to_phys3 (scan_world demo_world 0 demo_other 0 k) demo_other.terrain t)
          (scan_world demo_world 0 demo_other 0 k)
        = (some placed, (UnitType.place_beside demo_world (some 0) (some demo_other) 0).state) ∧
      (UnitType.place_beside demo_world (some 0) (some demo_other) 0).result = some placed ∧
      visited (UnitType.place_beside demo_world (some 0) (some demo_other) 0).calls
        = (scan_list demo_world demo_other).take (k + 1) :=
  ⟨by decide, place_beside_first_fit demo_world 0 demo_other 0
    ⟨14, { ne := 2, se := 1 }, by decide, by decide⟩⟩

/-- C4: for a unit and a reference object that are both present,
`place_beside` returns nothing exactly when no tile of the scan list has a
chunk and a successful `place` in the world the scan reaches it in; and when
it returns nothing it has looked up every tile of the scan list. -/
theorem place_beside_none_iff {σ U T O : Type} (E : Collaborators σ U T O) (u : U)
    (other : TerrainObject T) (s : σ) :
    ((UnitType.place_beside E (some u) (some other) s).result = none ↔
      ∀ i t, (scan_list E other)[i]? = some t →
        attempt E u other.terrain (scan_world E u other s i) t = none) ∧
    ((UnitType.place_beside E (some u) (some other) s).result = none →
      visited (UnitType.place_beside E (some u) (some other) s).calls = scan_list E other) := by
  have hiff : (UnitType.place_beside E (some u) (some other) s).result = none ↔
      ∀ i t, (scan_list E other)[i]? = some t →
        attempt E u other.terrain (scan_world E u other s i) t = none := by
    constructor
    · intro hnone i t hit
      rw [← Option.not_isSome_iff_eq_none]
      intro hs
      obtain ⟨k, t1, placed, _, _, _, _, hres, _⟩ :=
        place_beside_scan_hit E u other s ⟨i, t, hit, hs⟩
      rw [hnone] at hres
      exact Option.noConfusion hres
    · intro hall
      exact (place_beside_scan_miss E u other s hall).1
  exact ⟨hiff, fun hnone => (place_beside_scan_miss E u other s (hiff.mp hnone)).2.2.1⟩

/-- C4, at inputs: in the example world without chunks nothing is returned and
all 16 tiles were looked up; in the example world with chunks an object is
returned, and indeed not every attempt of the scan fails. -/
theorem place_beside_none_iff_witness :
    ((UnitType.place_beside demo_void (some 0) (some demo_other) 0).result = none ∧
      visited (UnitType.place_beside demo_void (some 0) (some demo_other) 0).calls
        = scan_list demo_void demo_other) ∧
    ¬ (∀ i t, (scan_list demo_world demo_other)[i]? = some t →
        attempt demo_world 0 demo_other.terrain (scan_world demo_world 0 demo_other 0 i) t
          = none) := by
  have hvoid : (UnitType.place_beside demo_void (some 0) (some demo_other) 0).result = none := by
    decide
  have hhit : ¬ (UnitType.place_beside demo_world (some 0) (some demo_other) 0).result = none := by
    decide
  exact ⟨⟨hvoid, (place_beside_none_iff demo_void 0 demo_other 0).2 hvoid⟩,
    fun hall => hhit ((place_beside_none_iff demo_world 0 demo_other 0).1.mpr hall)⟩

/-- C5: with an absent unit or an absent reference object `place_beside`
returns nothing, whatever the other argument is, makes no collaborator call
(no chunk lookup, no `place`) and leaves the world as it was. -/
theorem place_beside_absent {σ U T O : Type} (E : Collaborators σ U T O)
    (u : Option U) (other : Option (TerrainObject T)) (s : σ) :
    ((UnitType.place_beside E none other s).result = none ∧
      (UnitType.place_beside E none other s).calls = [] ∧
      (UnitType.place_beside E none other s).state = s) ∧
    ((UnitType.place_beside E u none s).result = none ∧
      (UnitType.place_beside E u none s).calls = [] ∧
      (UnitType.place_beside E u none s).state = s) := by
  constructor
  · cases other <;> exact ⟨rfl, rfl, rfl⟩
  · cases u <;> exact ⟨rfl, rfl, rfl⟩

/-- C7: in the call log of `place_beside` every `place` call comes right after
a chunk lookup of the same tile that found a chunk, so a tile without a chunk
is skipped; when no tile of the scan list has a chunk, every tile is looked
up, `place` is not called at all, nothing is returned and the world is left as
it was; and an object that is returned was returned by `place` for a tile of
the scan list that had a chunk when the scan reached it. -/
theorem place_beside_skips_missing_chunks {σ U T O : Type} (E : Collaborators σ U T O)
    (u : U) (other : TerrainObject T) (s : σ) :
    (∀ l1 l2 t p,
      (UnitType.place_beside E (some u) (some other) s).calls = l1 ++ Call.place t p :: l2 →
      ∃ l0, l1 = l0 ++ [Call.get_chunk t true]) ∧
    ((∀ t ∈ scan_list E other, E.get_chunk s other.terrain t = false) →
      (UnitType.place_beside E (some u) (some other) s).result = none ∧
      (UnitType.place_beside E (some u) (some other) s).state = s ∧
      (UnitType.place_beside E (some u) (some other) s).calls
        = (scan_list E other).map (fun t => Call.get_chunk t false) ∧
      visited (UnitType.place_beside E (some u) (some other) s).calls = scan_list E other ∧
      place_calls (UnitType.place_beside E (some u) (some other) s).calls = []) ∧
    (∀ placed, (UnitType.place_beside E (some u) (some other) s).result = some placed →
      ∃ k t, (scan_list E other)[k]? = some t ∧
        E.get_chunk (scan_world E u other s k) other.terrain t = true ∧
        E.place u other.terrain (E.to_phys3 (scan_world E u other s k) other.terrain t)
            (scan_world E u other s k)
          = (some placed, (UnitType.place_beside E (some u) (some other) s).state)) := by
  have hpb : UnitType.place_beside E (some u) (some other) s
      = place_beside_loop E u other.terrain (scan_list E other) s := rfl
  refine ⟨?_, ?_, ?_⟩
  · intro l1 l2 t p h
    rw [hpb] at h
    exact place_beside_loop_place_after_chunk E u other.terrain _ s l1 l2 t p h
  · intro h
    rw [hpb, place_beside_loop_no_chunk E u other.terrain _ s h]
    exact ⟨rfl, rfl, rfl, visited_map_miss _, place_calls_map_miss _⟩
  · intro placed hres
    by_cases hex : ∃ i t, (scan_list E other)[i]? = some t ∧
        (attempt E u other.terrain (scan_world E u other s i) t).isSome = true
    · obtain ⟨k, t, placed1, hk, _, hc, hp, hres1, _⟩ := place_beside_scan_hit E u other s hex
      rw [hres] at hres1
      cases hres1
      exact ⟨k, t, hk, hc, hp⟩
    · have hall : ∀ i t, (scan_list E other)[i]? = some t →
          attempt E u other.terrain (scan_world E u other s i) t = none := by
        intro i t hit
        rw [← Option.not_isSome_iff_eq_none]
        intro hs
        exact hex ⟨i, t, hit, hs⟩
      have := (place_beside_scan_miss E u other s hall).1
      rw [hres] at this
      exact Option.noConfusion this

/-- C7, at an input: in the example world without chunks the scan of the 16
tiles returns nothing, calls `place` for no tile and looks up every tile. -/
theorem place_beside_skips_missing_chunks_witness :
    (UnitType.place_beside demo_void (some 0) (some demo_other) 0).result = none ∧
    place_calls (UnitType.place_beside demo_void (some 0) (some demo_other) 0).calls = [] ∧
    (visited (UnitType.place_beside demo_void (some 0) (some demo_other) 0).calls).length = 16 := by
  have h := (place_beside_skips_missing_chunks demo_void 0 demo_other 0).2.1 (by decide)
  refine ⟨h.1, h.2.2.2.2, ?_⟩
  rw [h.2.2.2.1]
  decide

/-! ## The scan list -/

theorem tile_list_length (rng : tile_range) :
    (tile_list rng).length
      = (rng.end_.ne - rng.start.ne + 1).toNat * (rng.end_.se - rng.start.se + 1).toNat := by
  simp [tile_list, List.length_flatMap, Function.comp_def]

theorem mem_tile_list (rng : tile_range) (t : coord.tile) :
    t ∈ tile_list rng ↔
      (rng.start.ne ≤ t.ne ∧ t.ne ≤ rng.end_.ne) ∧ (rng.start.se ≤ t.se ∧ t.se ≤ rng.end_.se) := by
  simp only [tile_list, List.mem_flatMap, List.mem_map, List.mem_range]
  constructor
  · rintro ⟨i, hi, j, hj, rfl⟩
    simp only
    omega
  · rintro ⟨⟨h1, h2⟩, h3, h4⟩
    refine ⟨(t.ne - rng.start.ne).toNat, by omega, (t.se - rng.start.se).toNat, by omega, ?_⟩
    cases t with
    | mk a b =>
      simp only at h1 h2 h3 h4
      simp only [coord.tile.mk.injEq]
      omega

theorem tile_list_nodup (rng : tile_range) : (tile_list rng).Nodup := by
  unfold tile_list
  rw [List.nodup_flatMap]
  constructor
  · intro i _
    refine List.Nodup.map ?_ (List.nodup_range _)
    intro j1 j2 hj
    simp only [coord.tile.mk.injEq] at hj
    omega
  · refine List.Pairwise.imp_of_mem ?_ (List.nodup_range _)
    intro i1 i2 _ _ hne
    simp only [Function.onFun, List.disjoint_left, List.mem_map]
    rintro t ⟨j1, _, rfl⟩ ⟨j2, _, h⟩
    simp only [coord.tile.mk.injEq] at h
    omega

/-- C6: for a reference footprint of width `w` and height `h` (corners
included), the scan list of `place_beside` is the modelled `tile_list` of the
footprint grown by one tile on every side: `(w+2)*(h+2)` tiles, no tile twice,
namely every tile of that rectangle; and when `place_beside` returns nothing
it has looked up all of them, in that order. -/
theorem place_beside_candidate_tiles {σ U T O : Type} (E : Collaborators σ U T O) (u : U)
    (other : TerrainObject T) (s : σ) (w h : Nat)
    (hE : E.tile_list = tile_list)
    (hw : other.pos.end_.ne + 1 = other.pos.start.ne + w)
    (hh : other.pos.end_.se + 1 = other.pos.start.se + h) :
    scan_list E other
      = tile_list { start := { ne := other.pos.start.ne - 1, se := other.pos.start.se - 1 },
                    end_ := { ne := other.pos.end_.ne + 1, se := other.pos.end_.se + 1 },
                    draw := other.pos.draw } ∧
    (scan_list E other).length = (w + 2) * (h + 2) ∧
    (scan_list E other).Nodup ∧
    (∀ t, t ∈ scan_list E other ↔
      (other.pos.start.ne - 1 ≤ t.ne ∧ t.ne ≤ other.pos.end_.ne + 1) ∧
      (other.pos.start.se - 1 ≤ t.se ∧ t.se ≤ other.pos.end_.se + 1)) ∧
    ((UnitType.place_beside E (some u) (some other) s).result = none →
      visited (UnitType.place_beside E (some u) (some other) s).calls = scan_list E other) := by
  have hlist : scan_list E other = tile_list (outline_of other.pos) := by
    simp only [scan_list, hE]
  refine ⟨hlist, ?_, ?_, ?_, ?_⟩
  · rw [hlist, tile_list_length]
    simp only [outline_of, coord.tile.add, coord.tile.sub]
    have e1 : (other.pos.end_.ne + 1 - (other.pos.start.ne - 1) + 1).toNat = w + 2 := by omega
    have e2 : (other.pos.end_.se + 1 - (other.pos.start.se - 1) + 1).toNat = h + 2 := by omega
    rw [e1, e2]
  · rw [hlist]
    exact tile_list_nodup _
  · intro t
    rw [hlist, mem_tile_list]
    simp only [outline_of, coord.tile.add, coord.tile.sub]
  · intro hnone
    have hall : ∀ i t, (scan_list E other)[i]? = some t →
        attempt E u other.terrain (scan_world E u other s i) t = none := by
      intro i t hit
      rw [← Option.not_isSome_iff_eq_none]
      intro hs
      obtain ⟨k, t1, placed, _, _, _, _, hres, _⟩ :=
        place_beside_scan_hit E u other s ⟨i, t, hit, hs⟩
      rw [hnone] at hres
      exact Option.noConfusion hres
    exact (place_beside_scan_miss E u other s hall).2.2.1

/-- C6, at an input: the `2×2` footprint `(0,0)–(1,1)` gives the 16 tiles of
`(−1,−1)–(2,2)`, row by row, and a scan in a world without chunks looks up all
16. -/
theorem place_beside_candidate_tiles_witness :
    (scan_list demo_void demo_other).length = (2 + 2) * (2 + 2) ∧
    (scan_list demo_void demo_other).Nodup ∧
    scan_list demo_void demo_other
      = [{ ne := -1, se := -1 }, { ne := -1, se := 0 }, { ne := -1, se := 1 },
         { ne := -1, se := 2 }, { ne := 0, se := -1 }, { ne := 0, se := 0 },
         { ne := 0, se := 1 }, { ne := 0, se := 2 }, { ne := 1, se := -1 },
         { ne := 1, se := 0 }, { ne := 1, se := 1 }, { ne := 1, se := 2 },
         { ne := 2, se := -1 }, { ne := 2, se := 0 }, { ne := 2, se := 1 },
         { ne := 2, se := 2 }] ∧
    visited (UnitType.place_beside demo_void (some 0) (some demo_other) 0).calls
      = scan_list demo_void demo_other := by
  have h := place_beside_candidate_tiles demo_void 0 demo_other 0 2 2 rfl
    (by decide) (by decide)
  exact ⟨h.2.1, h.2.2.1, by decide, h.2.2.2.2 (by decide)⟩

/-! ## Attributes and reinitialise -/

theorem AttributeContainer.copy_eq (attr : AttributeContainer) : attr.copy = attr := rfl

/-- The copy appends the selected current entries of `other`, in order. -/
theorem Attributes.add_copies_attrs (self other : Attributes) (shared unshared : Bool) :
    (self.add_copies other shared unshared).attrs
      = self.attrs
        ++ other.current.filter (fun attr => if attr.shared then shared else unshared) := by
  simp only [Attributes.add_copies]
  generalize other.current = l
  induction l generalizing self with
  | nil => simp
  | cons a l ih =>
    simp only [List.foldl_cons, ih, List.filter_cons]
    by_cases hs : a.shared = true <;> by_cases h1 : shared = true <;>
      by_cases h2 : unshared = true <;>
      simp [hs, h1, h2, Attributes.add, AttributeContainer.copy_eq]

/-- The merge appends every contribution of `other`, in order. -/
theorem Attributes.add_copies_all_attrs (self other : Attributes) :
    (self.add_copies_all other).attrs = self.attrs ++ other.attrs := by
  obtain ⟨l⟩ := other
  simp only [Attributes.add_copies_all]
  induction l generalizing self with
  | nil => simp
  | cons a l ih =>
    simp only [List.foldl_cons, ih]
    by_cases hs : a.shared = true <;> simp [hs, Attributes.add, AttributeContainer.copy_eq]

/-- The entry in force after two runs of contributions: the one of the later
run when it has one for the attribute, else the one of the earlier run. -/
theorem Attributes.get_append (l1 l2 : List AttributeContainer) (t : attr_type) :
    Attributes.get { attrs := l1 ++ l2 } t
      = (Attributes.get { attrs := l2 } t).or (Attributes.get { attrs := l1 } t) := by
  simp [Attributes.get, List.reverse_append, List.find?_append]

theorem Attributes.get_cons (a : AttributeContainer) (l : List AttributeContainer)
    (t : attr_type) :
    Attributes.get { attrs := a :: l } t
      = (Attributes.get { attrs := l } t).or (if a.type = t then some a else none) := by
  have h := Attributes.get_append [a] l t
  rw [List.singleton_append] at h
  rw [h]
  congr 1
  by_cases hat : a.type = t <;> simp [Attributes.get, hat]

theorem Attributes.get_eq_none_iff (l : List AttributeContainer) (t : attr_type) :
    Attributes.get { attrs := l } t = none ↔ ∀ b ∈ l, b.type ≠ t := by
  simp [Attributes.get]

theorem Attributes.get_some_type (l : List AttributeContainer) (t : attr_type)
    (e : AttributeContainer) (h : Attributes.get { attrs := l } t = some e) :
    e.type = t ∧ e ∈ l := by
  simp only [Attributes.get] at h
  have h1 := List.find?_some h
  have h2 := List.mem_of_find?_eq_some h
  exact ⟨by simpa using h1, by simpa using h2⟩

/-- Among the current entries selected by a filter, the entry in force for an
attribute is the entry in force in the whole container, when the filter
selects it, and none otherwise. -/
theorem Attributes.get_in_force_filter (l : List AttributeContainer)
    (p : AttributeContainer → Bool) (t : attr_type) :
    Attributes.get { attrs := (in_force l).filter p } t
      = (Attributes.get { attrs := l } t).filter p := by
  induction l with
  | nil => rfl
  | cons a l ih =>
    rw [Attributes.get_cons a l t]
    by_cases hany : l.any (fun b => b.type == a.type) = true
    · have hin : in_force (a :: l) = in_force l := by simp only [in_force, hany, if_true]
      rw [hin, ih]
      by_cases hat : a.type = t
      · have hsome : Attributes.get { attrs := l } t ≠ none := by
          rw [Ne, Attributes.get_eq_none_iff]
          intro hall
          obtain ⟨b, hb, hbt⟩ := List.any_eq_true.mp hany
          exact hall b hb (by rw [← hat]; simpa using hbt)
        obtain ⟨e, he⟩ := Option.ne_none_iff_exists'.mp hsome
        rw [he]
        rfl
      · simp [hat]
    · have hin : in_force (a :: l) = a :: in_force l := by
        simp only [in_force, hany, Bool.false_eq_true, if_false]
      rw [hin]
      by_cases hat : a.type = t
      · have hnone : Attributes.get { attrs := l } t = none := by
          rw [Attributes.get_eq_none_iff]
          intro b hb hbt
          apply hany
          exact List.any_eq_true.mpr ⟨b, hb, by rw [hat]; simpa using hbt⟩
        have ihn : Attributes.get { attrs := (in_force l).filter p } t = none := by
          rw [ih, hnone]
          rfl
        by_cases hp : p a = true
        · rw [List.filter_cons_of_pos hp, Attributes.get_cons, ihn, hnone]
          simp [hat, hp, Option.filter]
        · rw [List.filter_cons_of_neg hp, ihn, hnone]
          simp [hat, hp, Option.filter]
      · by_cases hp : p a = true
        · rw [List.filter_cons_of_pos hp, Attributes.get_cons, ih]
          simp [hat]
        · rw [List.filter_cons_of_neg hp, ih]
          simp [hat]

/-- An entry in force is one of the current entries. -/
theorem Attributes.mem_current_of_get (self : Attributes) (t : attr_type)
    (e : AttributeContainer) (h : self.get t = some e) : e ∈ self.current := by
  have h1 := Attributes.get_in_force_filter self.attrs (fun _ => true) t
  have h2 : Attributes.get { attrs := self.attrs } t = some e := h
  rw [h2] at h1
  have h3 := (Attributes.get_some_type _ t e h1).2
  exact (List.mem_filter.mp h3).1

/-- A current entry is the entry in force for its attribute. -/
theorem Attributes.get_of_mem_current (self : Attributes) (e : AttributeContainer)
    (h : e ∈ self.current) : self.get e.type = some e := by
  obtain ⟨l⟩ := self
  simp only [Attributes.current] at h
  induction l with
  | nil => simp [in_force] at h
  | cons a l ih =>
    show Attributes.get { attrs := a :: l } e.type = some e
    rw [Attributes.get_cons]
    by_cases hany : l.any (fun b => b.type == a.type) = true
    · simp only [in_force, hany, if_true] at h
      have := ih h
      change Attributes.get { attrs := l } e.type = some e at this
      rw [this]
      rfl
    · simp only [in_force, hany, Bool.false_eq_true, if_false, List.mem_cons] at h
      rcases h with h | h
      · subst h
        have hnone : Attributes.get { attrs := l } e.type = none := by
          rw [Attributes.get_eq_none_iff]
          intro b hb hbt
          apply hany
          exact List.any_eq_true.mpr ⟨b, hb, by simpa using hbt⟩
        rw [hnone]
        simp
      · have := ih h
        change Attributes.get { attrs := l } e.type = some e at this
        rw [this]
        rfl

/-- The attributes of a unit after `reinitialise`: what `initialise` leaves,
followed by the unshared entries that were current in the unit before the
call. -/
theorem UnitType.reinitialise_attrs {L P : Type} (initialise : Unit L → P → Unit L × P)
    (unit : Unit L) (player : P) :
    (UnitType.reinitialise initialise unit player).1.attributes.attrs
      = (initialise unit player).1.attributes.attrs
        ++ unit.attributes.current.filter (fun attr => !attr.shared) := by
  simp only [UnitType.reinitialise, Attributes.add_copies_all_attrs,
    Attributes.add_copies_attrs, Attributes.empty, List.nil_append]
  congr 1
  apply List.filter_congr
  intro a _
  by_cases hs : a.shared = true <;> simp [hs]

/-- The entry in force for an attribute after `reinitialise`: the one the unit
held before the call when that was unshared, else the one `initialise`
leaves. -/
theorem UnitType.reinitialise_get {L P : Type} (initialise : Unit L → P → Unit L × P)
    (unit : Unit L) (player : P) (t : attr_type) :
    (UnitType.reinitialise initialise unit player).1.attributes.get t
      = ((unit.attributes.get t).filter (fun attr => !attr.shared)).or
          ((initialise unit player).1.attributes.get t) := by
  have hattrs := UnitType.reinitialise_attrs initialise unit player
  have hrw : (UnitType.reinitialise initialise unit player).1.attributes
      = { attrs := (initialise unit player).1.attributes.attrs
            ++ unit.attributes.current.filter (fun attr => !attr.shared) } := by
    rw [← hattrs]
  rw [hrw, Attributes.get_append, Attributes.current, Attributes.get_in_force_filter]

theorem Unit.foldl_give_ability_attributes {L : Type} (abilities : List UnitAbility)
    (unit : Unit L) :
    (abilities.foldl (fun un ability => un.give_ability ability) unit).attributes
      = unit.attributes := by
  induction abilities generalizing unit with
  | nil => rfl
  | cons a l ih => rw [List.foldl_cons, ih]; rfl

/-- The attributes of a unit after `NyanType::initialise`: those it held,
followed by the defaults of the type. -/
theorem NyanType.initialise_attrs {L P : Type} (self : UnitType) (unit : Unit L) (player : P) :
    (NyanType.initialise self unit player).1.attributes.attrs
      = unit.attributes.attrs ++ self.default_attributes.attrs := by
  simp only [NyanType.initialise, Unit.push_action, UnitType.copy_attributes,
    Unit.add_attributes, Attributes.add_copies_all_attrs,
    Unit.foldl_give_ability_attributes, Unit.reset]

/-- C2: an attribute entry that is in force in the unit and unshared before
`reinitialise` is in force, with the same value, after it, whatever the
`initialise` of the type does to the unit. -/
theorem reinitialise_keeps_unshared {L P : Type} (initialise : Unit L → P → Unit L × P)
    (unit : Unit L) (player : P) (attr : AttributeContainer)
    (hget : unit.attributes.get attr.type = some attr)
    (hunshared : attr.shared = false) :
    (UnitType.reinitialise initialise unit player).1.attributes.get attr.type = some attr ∧
    attr ∈ (UnitType.reinitialise initialise unit player).1.attributes.attrs := by
  constructor
  · rw [UnitType.reinitialise_get, hget]
    simp [Option.filter, hunshared]
  · rw [UnitType.reinitialise_attrs]
    apply List.mem_append_right
    exact List.mem_filter.mpr
      ⟨Attributes.mem_current_of_get _ _ _ hget, by simp [hunshared]⟩

/-- C2, at inputs: a unit with unshared `health = 7` reinitialised with a type
whose defaults omit `health`, and with a type whose defaults write
`health = 100`, has `health = 7` afterwards. -/
theorem reinitialise_keeps_unshared_witness :
    ((UnitType.reinitialise (NyanType.initialise demo_type) demo_unit 0).1.attributes.get 0
        = some { type := 0, shared := false, value := 7 } ∧
      ({ type := 0, shared := false, value := 7 } : AttributeContainer)
        ∈ (UnitType.reinitialise (NyanType.initialise demo_type) demo_unit 0).1.attributes.attrs) ∧
    ((UnitType.reinitialise (NyanType.initialise demo_type_health) demo_unit 0).1.attributes.get 0
        = some { type := 0, shared := false, value := 7 } ∧
      ({ type := 0, shared := false, value := 7 } : AttributeContainer)
        ∈ (UnitType.reinitialise (NyanType.initialise demo_type_health)
            demo_unit 0).1.attributes.attrs) :=
  ⟨reinitialise_keeps_unshared (NyanType.initialise demo_type) demo_unit 0
      { type := 0, shared := false, value := 7 } (by decide) rfl,
    reinitialise_keeps_unshared (NyanType.initialise demo_type_health) demo_unit 0
      { type := 0, shared := false, value := 7 } (by decide) rfl⟩

/-- C3, refuted as stated, in both directions.  The example unit holds shared
`armor = 5` and the defaults of the example type have no `armor`: after
`reinitialise` the unit still holds that shared entry, in force, so not every
shared entry it holds is an entry of the defaults.  And the defaults of the
type that writes shared `health = 100` are not all held: the unit held
unshared `health = 7`, which is in force afterwards. -/
theorem reinitialise_shared_counterexample :
    ((UnitType.reinitialise (NyanType.initialise demo_type) demo_unit 0).1.attributes.get 1
        = some { type := 1, shared := true, value := 5 } ∧
      demo_type.default_attributes.get 1 = none ∧
      ¬ (∀ attr ∈ (UnitType.reinitialise (NyanType.initialise demo_type)
            demo_unit 0).1.attributes.attrs,
          attr.shared = true → attr ∈ demo_type.default_attributes.attrs)) ∧
    (demo_type_health.default_attributes.get 0
        = some { type := 0, shared := true, value := 100 } ∧
      (UnitType.reinitialise (NyanType.initialise demo_type_health)
          demo_unit 0).1.attributes.get 0
        = some { type := 0, shared := false, value := 7 }) := by
  decide

/-- C3, amended: after `reinitialise` by the root type the entry in force for
an attribute is the one the unit held before the call when that was unshared,
else the default of the type for it when there is one, else the one the unit
held.  So a shared entry the unit holds is the default of the type for that
attribute, with the value of the default, or a shared entry it held before
the call for an attribute the defaults do not contain; and a default of the
type is the entry the unit holds for its attribute, with the value of the
default, unless the unit held an unshared entry for it before the call. -/
theorem reinitialise_shared_entries {L P : Type} (self : UnitType) (unit : Unit L)
    (player : P) (t : attr_type) :
    (UnitType.reinitialise (NyanType.initialise self) unit player).1.attributes.get t
      = ((unit.attributes.get t).filter (fun attr => !attr.shared)).or
          ((self.default_attributes.get t).or (unit.attributes.get t)) ∧
    (∀ e, (UnitType.reinitialise (NyanType.initialise self) unit player).1.attributes.get t
        = some e → e.shared = true →
      self.default_attributes.get t = some e ∨
      (self.default_attributes.get t = none ∧ unit.attributes.get t = some e)) ∧
    (∀ d, self.default_attributes.get t = some d →
      (∀ e, unit.attributes.get t = some e → e.shared = true) →
      (UnitType.reinitialise (NyanType.initialise self) unit player).1.attributes.get t
        = some d) := by
  have hinit : (NyanType.initialise self unit player).1.attributes.get t
      = (self.default_attributes.get t).or (unit.attributes.get t) := by
    have h := NyanType.initialise_attrs self unit player
    have hrw : (NyanType.initialise self unit player).1.attributes
        = { attrs := unit.attributes.attrs ++ self.default_attributes.attrs } := by
      rw [← h]
    rw [hrw, Attributes.get_append]
  have hget := UnitType.reinitialise_get (NyanType.initialise self) unit player t
  rw [hinit] at hget
  refine ⟨hget, ?_, ?_⟩
  · intro e he hshared
    rw [hget] at he
    cases hu : unit.attributes.get t with
    | none =>
      rw [hu] at he
      cases hd : self.default_attributes.get t with
      | none => rw [hd] at he; simp [Option.filter] at he
      | some d =>
        rw [hd] at he
        simp [Option.filter] at he
        left
        rw [he]
    | some u0 =>
      rw [hu] at he
      by_cases hs : u0.shared = true
      · cases hd : self.default_attributes.get t with
        | none =>
          rw [hd] at he
          simp [Option.filter, hs] at he
          right
          exact ⟨rfl, by rw [he]⟩
        | some d =>
          rw [hd] at he
          simp [Option.filter, hs] at he
          left
          rw [he]
      · simp [Option.filter, hs] at he
        rw [he] at hs
        exact absurd hshared hs
  · intro d hd hall
    rw [hget, hd]
    cases hu : unit.attributes.get t with
    | none => simp [Option.filter]
    | some u0 => simp [Option.filter, hall u0 hu]

/-- C3 amended, at inputs: after `reinitialise` of the example unit by the
example type the shared default `speed = 3` is in force and the shared
`armor = 5`, which the defaults do not contain, is still held. -/
theorem reinitialise_shared_entries_witness :
    (UnitType.reinitialise (NyanType.initialise demo_type) demo_unit 0).1.attributes.get 2
      = some { type := 2, shared := true, value := 3 } ∧
    (demo_type.default_attributes.get 1 = some { type := 1, shared := true, value := 5 } ∨
      (demo_type.default_attributes.get 1 = none ∧
        demo_unit.attributes.get 1 = some { type := 1, shared := true, value := 5 })) :=
  ⟨(reinitialise_shared_entries demo_type demo_unit 0 2).2.2
      { type := 2, shared := true, value := 3 } (by decide) (by decide),
    (reinitialise_shared_entries demo_type demo_unit 0 1).2.1
      { type := 1, shared := true, value := 5 } (by decide) rfl⟩

/-! ## Equality and upgrade -/

theorem UnitType.eq_iff (a b : UnitType) :
    a.eq b = true ↔ a.type_abilities = b.type_abilities := by
  simp [UnitType.eq]

/-- C8: `a == b` holds exactly when the two ability sequences have the same
length and the same element at every index; two types with the same ability
sequences as `a` and `b` compare the same way whatever their other members
are; and `a != b` is the negation of `a == b`. -/
theorem unit_type_eq_abilities (a b : UnitType) :
    (a.eq b = true ↔
      a.type_abilities.length = b.type_abilities.length ∧
      ∀ i : Nat, a.type_abilities[i]? = b.type_abilities[i]?) ∧
    (∀ addr owner have_limit had_limit default_attributes graphics id parent_id name,
      UnitType.eq
        { addr := addr, owner := owner, have_limit := have_limit, had_limit := had_limit,
          default_attributes := default_attributes, type_abilities := a.type_abilities,
          graphics := graphics, id := id, parent_id := parent_id, name := name } b
        = a.eq b ∧
      UnitType.eq b
        { addr := addr, owner := owner, have_limit := have_limit, had_limit := had_limit,
          default_attributes := default_attributes, type_abilities := a.type_abilities,
          graphics := graphics, id := id, parent_id := parent_id, name := name }
        = b.eq a) ∧
    a.ne b = !(a.eq b) := by
  refine ⟨?_, ?_, rfl⟩
  · rw [UnitType.eq_iff]
    constructor
    · intro h
      rw [h]
      exact ⟨rfl, fun _ => rfl⟩
    · intro h
      exact List.ext_getElem? h.2
  · intros
    exact ⟨rfl, rfl⟩

/-- C9: two types with the same ability sequence compare equal, and a type
whose ability sequence holds the same elements in another order compares
unequal. -/
theorem unit_type_eq_order (a b : UnitType) :
    (a.type_abilities = b.type_abilities → a.eq b = true) ∧
    (b.type_abilities.Perm a.type_abilities → b.type_abilities ≠ a.type_abilities →
      a.eq b = false ∧ a.ne b = true) := by
  constructor
  · intro h
    exact (UnitType.eq_iff a b).mpr h
  · intro _ hne
    have : a.eq b = false := by
      rw [← Bool.not_eq_true, UnitType.eq_iff]
      exact fun h => hne h.symm
    exact ⟨this, by simp [UnitType.ne, this]⟩

/-- C9, at an input: the example types have the abilities `[1, 2]` and
`[2, 1]`; each equals itself and they are unequal to each other. -/
theorem unit_type_eq_order_witness :
    demo_type.eq demo_type = true ∧
    (demo_type.eq demo_type_health = false ∧ demo_type.ne demo_type_health = true) :=
  ⟨(unit_type_eq_order demo_type demo_type).1 rfl,
    (unit_type_eq_order demo_type demo_type_health).2 (by decide) (by decide)⟩

theorem Unit.foldl_give_ability {L : Type} (abilities : List UnitAbility) (unit : Unit L) :
    abilities.foldl (fun un ability => un.give_ability ability) unit
      = { unit with ability_available := unit.ability_available ++ abilities } := by
  induction abilities generalizing unit with
  | nil => simp
  | cons a l ih =>
    rw [List.foldl_cons, ih]
    simp [Unit.give_ability]

/-- The unit `NyanType::initialise` leaves behind. -/
theorem NyanType.initialise_eq {L P : Type} (self : UnitType) (unit : Unit L) (player : P) :
    NyanType.initialise self unit player
      = ({ unit_type := some self.addr,
           attributes := { attrs := unit.attributes.attrs ++ self.default_attributes.attrs },
           ability_available := self.type_abilities,
           action_stack := [(UnitAction.idle, true)],
           location := unit.location }, player) := by
  have hattrs := NyanType.initialise_attrs self unit player
  simp only [NyanType.initialise, Unit.foldl_give_ability, Unit.push_action,
    UnitType.copy_attributes, Unit.add_attributes, Unit.reset, List.nil_append] at hattrs ⊢
  rw [Prod.mk.injEq]
  refine ⟨?_, rfl⟩
  congr 1
  cases hc : unit.attributes.add_copies_all self.default_attributes with
  | mk l =>
    rw [hc] at hattrs
    simp only at hattrs
    rw [hattrs]

/-- C12: after `NyanType::initialise` the abilities and actions the unit had
are gone, its type back-reference is the address of this type, its abilities
are the ability sequence of the type in order, its attributes are those it
held followed by the defaults of the type, and its action stack holds one
action, the idle action, pushed with the flag set; the location and the player
are not written. -/
theorem nyan_initialise_state {L P : Type} (self : UnitType) (unit : Unit L) (player : P) :
    (NyanType.initialise self unit player).1.unit_type = some self.addr ∧
    (NyanType.initialise self unit player).1.ability_available = self.type_abilities ∧
    (NyanType.initialise self unit player).1.attributes.attrs
      = unit.attributes.attrs ++ self.default_attributes.attrs ∧
    (NyanType.initialise self unit player).1.action_stack = [(UnitAction.idle, true)] ∧
    (NyanType.initialise self unit player).1.location = unit.location ∧
    (NyanType.initialise self unit player).2 = player := by
  rw [NyanType.initialise_eq]
  exact ⟨rfl, rfl, rfl, rfl, rfl, rfl⟩

/-! ## Placement by the root type -/

/-- What `NyanType::place` computes, in terms of the one placement it tries. -/
theorem NyanType.place_eq {T W : Type}
    (commit : SquareObject T → T → coord.phys3 → object_state → W → Bool × SquareObject T × W)
    (terrain : T) (init_pos : coord.phys3) (w : World T W) :
    NyanType.place commit terrain init_pos w
      = (if (commit NyanType.location_tried terrain init_pos object_state.placed w.terrain).1
          then some
            (commit NyanType.location_tried terrain init_pos object_state.placed w.terrain).2.1
          else none,
         { unit := { w.unit with
             location := some
               (commit NyanType.location_tried terrain init_pos
                 object_state.placed w.terrain).2.1 },
           terrain :=
             (commit NyanType.location_tried terrain init_pos object_state.placed w.terrain).2.2,
           log :=
             if (commit NyanType.location_tried terrain init_pos object_state.placed w.terrain).1
             then w.log else w.log ++ ["failed to place object"] }) := by
  simp only [NyanType.place, Unit.make_location, SquareObject.new, NyanType.location_tried]
  split <;> simp_all

/-- C13: for every placement `commit`, `NyanType::place` tries one object, a
new `1×1` square whose predicate accepts every position, on the given terrain
at the given position in the state `placed`; it returns an object exactly when
that placement succeeds and nothing otherwise, and the object it returns is
the location of the unit, as the placement left it. -/
theorem nyan_place_result {T W : Type}
    (commit : SquareObject T → T → coord.phys3 → object_state → W → Bool × SquareObject T × W)
    (terrain : T) (init_pos : coord.phys3) (w : World T W) :
    ((NyanType.place commit terrain init_pos w).1.isSome = true ↔
      (commit NyanType.location_tried terrain init_pos object_state.placed w.terrain).1 = true) ∧
    ((NyanType.place commit terrain init_pos w).1 = none ↔
      (commit NyanType.location_tried terrain init_pos object_state.placed w.terrain).1
        = false) ∧
    ((NyanType.place commit terrain init_pos w).1.isSome = true →
      (NyanType.place commit terrain init_pos w).1
        = (NyanType.place commit terrain init_pos w).2.unit.location) ∧
    (NyanType.place commit terrain init_pos w).2.unit.location
      = some (commit NyanType.location_tried terrain init_pos
          object_state.placed w.terrain).2.1 ∧
    (NyanType.place commit terrain init_pos w).2.terrain
      = (commit NyanType.location_tried terrain init_pos object_state.placed w.terrain).2.2 ∧
    (NyanType.location_tried : SquareObject T).size = { ne := 1, se := 1 } ∧
    (∀ pos, (NyanType.location_tried : SquareObject T).passable pos = true) := by
  rw [NyanType.place_eq]
  cases hc : (commit NyanType.location_tried terrain init_pos object_state.placed w.terrain).1
  · simp
    exact ⟨rfl, fun _ => rfl⟩
  · simp
    exact ⟨rfl, fun _ => rfl⟩

/-- C13, at inputs: on the example terrain the unit is placed at `(2,0,0)`,
where the object fits, and not at `(0,0,0)`, where it does not. -/
theorem nyan_place_result_witness :
    ((NyanType.place demo_commit 0 { ne := 2, se := 0, up := 0 } demo_nyan_world).1.map
        (fun obj => obj.placement)
      = some (some (0, { ne := 2, se := 0, up := 0 }, object_state.placed))) ∧
    (NyanType.place demo_commit 0 { ne := 2, se := 0, up := 0 } demo_nyan_world).1
      = (NyanType.place demo_commit 0 { ne := 2, se := 0, up := 0 }
          demo_nyan_world).2.unit.location ∧
    (NyanType.place demo_commit 0 { ne := 0, se := 0, up := 0 } demo_nyan_world).1 = none := by
  refine ⟨by decide, ?_, ?_⟩
  · exact (nyan_place_result demo_commit 0 { ne := 2, se := 0, up := 0 } demo_nyan_world).2.2.1
      (by decide)
  · exact (nyan_place_result demo_commit 0 { ne := 0, se := 0, up := 0 } demo_nyan_world).2.1.mpr
      (by decide)

/-! ## Upgrades, parents and limits -/

/-- A run of `upgrade` calls writes the defaults of the type only. -/
theorem upgrade_frame (contributions : List AttributeContainer) (self : UnitType) :
    (contributions.foldl UnitType.upgrade self).have_limit = self.have_limit ∧
    (contributions.foldl UnitType.upgrade self).had_limit = self.had_limit ∧
    (contributions.foldl UnitType.upgrade self).type_abilities = self.type_abilities ∧
    (contributions.foldl UnitType.upgrade self).id = self.id ∧
    (contributions.foldl UnitType.upgrade self).parent_id = self.parent_id ∧
    (contributions.foldl UnitType.upgrade self).name = self.name := by
  induction contributions generalizing self with
  | nil => exact ⟨rfl, rfl, rfl, rfl, rfl, rfl⟩
  | cons a l ih =>
    rw [List.foldl_cons]
    exact ih (self.upgrade a)

/-- C16: `parent_type()` is what the lookup of the owner returns for
`parent_id()`, and so it is nothing exactly when that lookup finds no type;
the root type has the id 1, the name `Nyan` and the parent id -1, also after
upgrades, and so its parent is looked up under -1. -/
theorem parent_type_lookup {R : Type} (get_type : Nat → Int → Option R) (self : UnitType)
    (addr owner : Nat) (contributions : List AttributeContainer) :
    self.parent_type get_type = get_type self.owner self.parent_id ∧
    (self.parent_type get_type = none ↔ get_type self.owner self.parent_id = none) ∧
    (NyanType.new addr owner).id = 1 ∧
    (NyanType.new addr owner).name = "Nyan" ∧
    (NyanType.new addr owner).parent_id = -1 ∧
    (contributions.foldl UnitType.upgrade (NyanType.new addr owner)).id = 1 ∧
    (contributions.foldl UnitType.upgrade (NyanType.new addr owner)).name = "Nyan" ∧
    (contributions.foldl UnitType.upgrade (NyanType.new addr owner)).parent_id = -1 ∧
    (NyanType.new addr owner).parent_type get_type = get_type owner (-1) := by
  have h := upgrade_frame contributions (NyanType.new addr owner)
  refine ⟨rfl, Iff.rfl, rfl, rfl, rfl, ?_, ?_, ?_, rfl⟩
  · rw [h.2.2.2.1]; rfl
  · rw [h.2.2.2.2.2]; rfl
  · rw [h.2.2.2.2.1]; rfl

/-- C17: a newly constructed `UnitType`, and so a newly constructed root type,
has both limits equal to the unbounded sentinel, which is not zero; and
`upgrade`, the one operation of the file that writes a member of a type,
leaves both limits as they are, however often it is called. -/
theorem limits_unbounded (addr owner : Nat) (id parent_id : Int) (name : String)
    (self : UnitType) (contributions : List AttributeContainer) :
    (UnitType.new addr owner id parent_id name).have_limit = math.INT_INF ∧
    (UnitType.new addr owner id parent_id name).had_limit = math.INT_INF ∧
    (NyanType.new addr owner).have_limit = math.INT_INF ∧
    (NyanType.new addr owner).had_limit = math.INT_INF ∧
    math.INT_INF ≠ 0 ∧
    (contributions.foldl UnitType.upgrade self).have_limit = self.have_limit ∧
    (contributions.foldl UnitType.upgrade self).had_limit = self.had_limit := by
  have h := upgrade_frame contributions self
  exact ⟨rfl, rfl, rfl, rfl, by decide, h.1, h.2.1⟩

/-! ## Reinitialise against initialise -/

/-- C19: for every `initialise`, `reinitialise` leaves what `initialise` alone
leaves, with the unshared entries that were current in the unit before the
call added after its attributes: the type back-reference, the abilities, the
action stack, the location and the player are those of `initialise`; the
entry in force for an attribute is the one the unit held before the call when
that was unshared, and the one of `initialise` otherwise; and when no unshared
entry was in force in the unit the two calls leave the same state. -/
theorem reinitialise_refines_initialise {L P : Type} (initialise : Unit L → P → Unit L × P)
    (unit : Unit L) (player : P) :
    (UnitType.reinitialise initialise unit player).1.unit_type
      = (initialise unit player).1.unit_type ∧
    (UnitType.reinitialise initialise unit player).1.ability_available
      = (initialise unit player).1.ability_available ∧
    (UnitType.reinitialise initialise unit player).1.action_stack
      = (initialise unit player).1.action_stack ∧
    (UnitType.reinitialise initialise unit player).1.location
      = (initialise unit player).1.location ∧
    (UnitType.reinitialise initialise unit player).2 = (initialise unit player).2 ∧
    (UnitType.reinitialise initialise unit player).1.attributes.attrs
      = (initialise unit player).1.attributes.attrs
        ++ unit.attributes.current.filter (fun attr => !attr.shared) ∧
    (∀ t, (UnitType.reinitialise initialise unit player).1.attributes.get t
      = ((unit.attributes.get t).filter (fun attr => !attr.shared)).or
          ((initialise unit player).1.attributes.get t)) ∧
    (∀ t, (∀ attr, unit.attributes.get t = some attr → attr.shared = true) →
      (UnitType.reinitialise initialise unit player).1.attributes.get t
        = (initialise unit player).1.attributes.get t) ∧
    (∀ t attr, unit.attributes.get t = some attr → attr.shared = false →
      (UnitType.reinitialise initialise unit player).1.attributes.get t = some attr) ∧
    ((∀ t attr, unit.attributes.get t = some attr → attr.shared = true) →
      UnitType.reinitialise initialise unit player = initialise unit player) := by
  have hattrs := UnitType.reinitialise_attrs initialise unit player
  have hget := UnitType.reinitialise_get initialise unit player
  refine ⟨rfl, rfl, rfl, rfl, rfl, hattrs, hget, ?_, ?_, ?_⟩
  · intro t ht
    rw [hget]
    cases hu : unit.attributes.get t with
    | none => simp [Option.filter]
    | some e => simp [Option.filter, ht e hu]
  · intro t attr hu hs
    rw [hget, hu]
    simp [Option.filter, hs]
  · intro hall
    have hnil : unit.attributes.current.filter (fun attr => !attr.shared) = [] := by
      apply List.filter_eq_nil_iff.mpr
      intro a ha
      have := hall a.type a (Attributes.get_of_mem_current _ a ha)
      simp [this]
    have hsame : (UnitType.reinitialise initialise unit player).1.attributes
        = (initialise unit player).1.attributes := by
      have hrw : (UnitType.reinitialise initialise unit player).1.attributes
          = { attrs := (initialise unit player).1.attributes.attrs
                ++ unit.attributes.current.filter (fun attr => !attr.shared) } := by
        rw [← hattrs]
      rw [hrw, hnil, List.append_nil]
    show ({ (initialise unit player).1 with
        attributes := (UnitType.reinitialise initialise unit player).1.attributes },
        (initialise unit player).2) = initialise unit player
    rw [hsame]

/-- C19, at inputs: the example unit holds unshared `health = 7`; after
`reinitialise` by the type that writes shared `health = 100` the entry in
force is the unshared one, after `initialise` alone it is the default, and
`armor` is the same after both.  In the unit in which `health = 7` was
overwritten by the shared `health = 100` no unshared entry is in force, and
`reinitialise` leaves the state `initialise` leaves. -/
theorem reinitialise_refines_initialise_witness :
    (UnitType.reinitialise (NyanType.initialise demo_type_health) demo_unit 0).1.attributes.get 0
      = some { type := 0, shared := false, value := 7 } ∧
    (NyanType.initialise demo_type_health demo_unit 0).1.attributes.get 0
      = some { type := 0, shared := true, value := 100 } ∧
    (UnitType.reinitialise (NyanType.initialise demo_type_health) demo_unit 0).1.attributes.get 1
      = (NyanType.initialise demo_type_health demo_unit 0).1.attributes.get 1 ∧
    demo_unit_merged.attributes.attrs
      = [{ type := 0, shared := false, value := 7 }, { type := 1, shared := true, value := 5 },
         { type := 0, shared := true, value := 100 }] ∧
    UnitType.reinitialise (NyanType.initialise demo_type) demo_unit_merged 0
      = NyanType.initialise demo_type demo_unit_merged 0 := by
  have h := reinitialise_refines_initialise (NyanType.initialise demo_type_health) demo_unit 0
  have hm := reinitialise_refines_initialise (NyanType.initialise demo_type) demo_unit_merged 0
  refine ⟨h.2.2.2.2.2.2.2.2.1 0 _ (by decide) rfl, by decide,
    h.2.2.2.2.2.2.2.1 1 (by decide), by decide, hm.2.2.2.2.2.2.2.2.2 ?_⟩
  intro t attr hget
  have hmem := Attributes.mem_current_of_get _ t attr hget
  have hall : ∀ e ∈ demo_unit_merged.attributes.current, e.shared = true := by decide
  exact hall attr hmem

/-! ## Order, cost and effect of the scan -/

/-- The tiles looked up by the loop are an initial part of its tiles, and
`place` is called for some of them, in the same order. -/
theorem place_beside_loop_initial {σ U T O : Type} (E : Collaborators σ U T O) (u : U)
    (terrain : T) (tiles : List coord.tile) (s : σ) :
    (∃ rest, tiles = visited (place_beside_loop E u terrain tiles s).calls ++ rest) ∧
    (place_calls (place_beside_loop E u terrain tiles s).calls).Sublist
      (visited (place_beside_loop E u terrain tiles s).calls) := by
  induction tiles generalizing s with
  | nil => exact ⟨⟨[], rfl⟩, List.Sublist.refl _⟩
  | cons a rest ih =>
    by_cases hc : E.get_chunk s terrain a = true
    · rcases hpl : E.place u terrain (E.to_phys3 s terrain a) s with ⟨r1, s1⟩
      cases r1 with
      | some placed =>
        simp only [place_beside_loop, hc, if_true, hpl]
        exact ⟨⟨rest, by simp [visited]⟩, by simp [visited, place_calls]⟩
      | none =>
        obtain ⟨⟨rest1, h1⟩, h2⟩ := ih s1
        simp only [place_beside_loop, hc, if_true, hpl]
        refine ⟨⟨rest1, ?_⟩, ?_⟩
        · simp only [visited, List.filterMap_cons, List.cons_append, List.cons.injEq,
            true_and] at h1 ⊢
          exact h1
        · simp only [visited, place_calls, List.filterMap_cons] at h2 ⊢
          exact List.Sublist.cons₂ _ h2
    · have hc1 : E.get_chunk s terrain a = false := by simpa using hc
      obtain ⟨⟨rest1, h1⟩, h2⟩ := ih s
      simp only [place_beside_loop, hc1, Bool.false_eq_true, if_false]
      refine ⟨⟨rest1, ?_⟩, ?_⟩
      · simp only [visited, List.filterMap_cons, List.cons_append, List.cons.injEq,
          true_and] at h1 ⊢
        exact h1
      · simp only [visited, place_calls, List.filterMap_cons] at h2 ⊢
        exact List.Sublist.cons _ h2

/-- Two runs of the loop over the same tiles, in worlds that are related and
stay related under `place`, and in which chunk lookup, coordinate conversion
and `place` answer alike, return the same result after the same calls. -/
theorem place_beside_loop_related {σ1 σ2 U1 U2 T1 T2 O : Type}
    (E1 : Collaborators σ1 U1 T1 O) (E2 : Collaborators σ2 U2 T2 O)
    (u1 : U1) (u2 : U2) (terrain1 : T1) (terrain2 : T2) (R : σ1 → σ2 → Prop)
    (hchunk : ∀ a b t, R a b → E1.get_chunk a terrain1 t = E2.get_chunk b terrain2 t)
    (hphys : ∀ a b t, R a b → E1.to_phys3 a terrain1 t = E2.to_phys3 b terrain2 t)
    (hplace : ∀ a b pos, R a b →
      (E1.place u1 terrain1 pos a).1 = (E2.place u2 terrain2 pos b).1 ∧
      R (E1.place u1 terrain1 pos a).2 (E2.place u2 terrain2 pos b).2)
    (tiles : List coord.tile) (s1 : σ1) (s2 : σ2) (hR : R s1 s2) :
    (place_beside_loop E1 u1 terrain1 tiles s1).result
      = (place_beside_loop E2 u2 terrain2 tiles s2).result ∧
    (place_beside_loop E1 u1 terrain1 tiles s1).calls
      = (place_beside_loop E2 u2 terrain2 tiles s2).calls ∧
    R (place_beside_loop E1 u1 terrain1 tiles s1).state
      (place_beside_loop E2 u2 terrain2 tiles s2).state := by
  induction tiles generalizing s1 s2 with
  | nil => exact ⟨rfl, rfl, hR⟩
  | cons a rest ih =>
    have hch := hchunk s1 s2 a hR
    have hph := hphys s1 s2 a hR
    have hpl := hplace s1 s2 (E1.to_phys3 s1 terrain1 a) hR
    rw [hph] at hpl
    by_cases hc : E1.get_chunk s1 terrain1 a = true
    · have hc2 : E2.get_chunk s2 terrain2 a = true := by rw [← hch]; exact hc
      rcases hp1 : E1.place u1 terrain1 (E1.to_phys3 s1 terrain1 a) s1 with ⟨r1, t1⟩
      rcases hp2 : E2.place u2 terrain2 (E2.to_phys3 s2 terrain2 a) s2 with ⟨r2, t2⟩
      rw [hph] at hp1
      rw [hp1, hp2] at hpl
      obtain ⟨hres, hrel⟩ := hpl
      simp only at hres hrel
      subst hres
      cases r1 with
      | some placed =>
        simp only [place_beside_loop, hc, hc2, if_true, hph, hp1, hp2]
        exact ⟨trivial, trivial, hrel⟩
      | none =>
        obtain ⟨i1, i2, i3⟩ := ih t1 t2 hrel
        simp only [place_beside_loop, hc, hc2, if_true, hph, hp1, hp2]
        exact ⟨i1, by rw [i2], i3⟩
    · have hc1 : E1.get_chunk s1 terrain1 a = false := by simpa using hc
      have hc2 : E2.get_chunk s2 terrain2 a = false := by rw [← hch]; exact hc1
      obtain ⟨i1, i2, i3⟩ := ih s1 s2 hR
      simp only [place_beside_loop, hc1, hc2, Bool.false_eq_true, if_false]
      exact ⟨i1, by rw [i2], i3⟩

/-- A property that every `place` call establishes holds after the loop, when
it held before or `place` was called at least once. -/
theorem place_beside_loop_after_place {σ U T O : Type} (E : Collaborators σ U T O) (u : U)
    (terrain : T) (Q : σ → Prop) (hQ : ∀ pos s, Q (E.place u terrain pos s).2)
    (tiles : List coord.tile) (s : σ)
    (h : Q s ∨ place_calls (place_beside_loop E u terrain tiles s).calls ≠ []) :
    Q (place_beside_loop E u terrain tiles s).state := by
  induction tiles generalizing s with
  | nil =>
    rcases h with h | h
    · exact h
    · exact absurd rfl h
  | cons a rest ih =>
    by_cases hc : E.get_chunk s terrain a = true
    · have hq := hQ (E.to_phys3 s terrain a) s
      rcases hpl : E.place u terrain (E.to_phys3 s terrain a) s with ⟨r1, s1⟩
      rw [hpl] at hq
      cases r1 with
      | some placed =>
        simp only [place_beside_loop, hc, if_true, hpl]
        exact hq
      | none =>
        simp only [place_beside_loop, hc, if_true, hpl]
        exact ih s1 (Or.inl hq)
    · have hc1 : E.get_chunk s terrain a = false := by simpa using hc
      simp only [place_beside_loop, hc1, Bool.false_eq_true, if_false] at h ⊢
      refine ih s ?_
      rcases h with h | h
      · exact Or.inl h
      · right
        simpa [place_calls] using h

/-- C15: two runs of `place_beside` with the same `tile_list`, the same
reference tile range, and worlds in which chunk lookup, coordinate conversion
and `place` answer alike all along, look up the same tiles in the same order,
make the same calls and return the same result; and the tiles looked up are
an initial part of `tile_list` of the outline, which is computed from the
tile range of the reference object alone. -/
theorem place_beside_deterministic {σ1 σ2 U1 U2 T1 T2 O : Type}
    (E1 : Collaborators σ1 U1 T1 O) (E2 : Collaborators σ2 U2 T2 O)
    (u1 : U1) (u2 : U2) (other1 : TerrainObject T1) (other2 : TerrainObject T2)
    (R : σ1 → σ2 → Prop) (s1 : σ1) (s2 : σ2)
    (hlist : E1.tile_list = E2.tile_list)
    (hrange : other1.pos = other2.pos)
    (hchunk : ∀ a b t, R a b →
      E1.get_chunk a other1.terrain t = E2.get_chunk b other2.terrain t)
    (hphys : ∀ a b t, R a b →
      E1.to_phys3 a other1.terrain t = E2.to_phys3 b other2.terrain t)
    (hplace : ∀ a b pos, R a b →
      (E1.place u1 other1.terrain pos a).1 = (E2.place u2 other2.terrain pos b).1 ∧
      R (E1.place u1 other1.terrain pos a).2 (E2.place u2 other2.terrain pos b).2)
    (hR : R s1 s2) :
    (UnitType.place_beside E1 (some u1) (some other1) s1).result
      = (UnitType.place_beside E2 (some u2) (some other2) s2).result ∧
    (UnitType.place_beside E1 (some u1) (some other1) s1).calls
      = (UnitType.place_beside E2 (some u2) (some other2) s2).calls ∧
    visited (UnitType.place_beside E1 (some u1) (some other1) s1).calls
      = visited (UnitType.place_beside E2 (some u2) (some other2) s2).calls ∧
    R (UnitType.place_beside E1 (some u1) (some other1) s1).state
      (UnitType.place_beside E2 (some u2) (some other2) s2).state ∧
    ∃ rest, E1.tile_list (outline_of other1.pos)
      = visited (UnitType.place_beside E1 (some u1) (some other1) s1).calls ++ rest := by
  have h1 : UnitType.place_beside E1 (some u1) (some other1) s1
      = place_beside_loop E1 u1 other1.terrain (E1.tile_list (outline_of other1.pos)) s1 := rfl
  have h2 : UnitType.place_beside E2 (some u2) (some other2) s2
      = place_beside_loop E2 u2 other2.terrain (E1.tile_list (outline_of other1.pos)) s2 := by
    rw [hlist, hrange]
    rfl
  obtain ⟨r1, r2, r3⟩ := place_beside_loop_related E1 E2 u1 u2 other1.terrain other2.terrain R
    hchunk hphys hplace (E1.tile_list (outline_of other1.pos)) s1 s2 hR
  rw [h1, h2]
  refine ⟨r1, r2, by rw [r2], r3, ?_⟩
  exact (place_beside_loop_initial E1 u1 other1.terrain _ s1).1

/-- C15, at inputs: two runs in the example world, for different units, from
worlds with different counters and for reference objects on different terrain
handles with the same tile range, return the same object after the same
calls. -/
theorem place_beside_deterministic_witness :
    (UnitType.place_beside demo_world (some 0) (some demo_other) 0).result
      = (UnitType.place_beside demo_world (some 1) (some demo_other_far) 5).result ∧
    (UnitType.place_beside demo_world (some 0) (some demo_other) 0).calls
      = (UnitType.place_beside demo_world (some 1) (some demo_other_far) 5).calls :=
  have h := place_beside_deterministic demo_world demo_world 0 1 demo_other demo_other_far
    (fun _ _ => True) 0 5 rfl rfl (fun _ _ _ _ => rfl) (fun _ _ _ _ => rfl)
    (fun _ _ _ _ => ⟨rfl, trivial⟩) trivial
  ⟨h.1, h.2.1⟩

/-- C18: `place_beside` is a total function: it returns after one pass over
the scan list.  The tiles for which it calls `place` are tiles of the scan
list, in scan order, each position at most once, so there are at most as many
calls as tiles; with the modelled `tile_list` and a footprint of width `w` and
height `h` that is at most `(w+2)*(h+2)` calls, no tile twice; and when an
object is returned, `place` returned it for a tile before which every attempt
failed and after which no tile was looked up, so no `place` call follows the
one that succeeded. -/
theorem place_beside_cost {σ U T O : Type} (E : Collaborators σ U T O) (u : U)
    (other : TerrainObject T) (s : σ) :
    (place_calls (UnitType.place_beside E (some u) (some other) s).calls).Sublist
      (scan_list E other) ∧
    (place_calls (UnitType.place_beside E (some u) (some other) s).calls).length
      ≤ (scan_list E other).length ∧
    (∀ w h : Nat, E.tile_list = tile_list →
      other.pos.end_.ne + 1 = other.pos.start.ne + w →
      other.pos.end_.se + 1 = other.pos.start.se + h →
      (place_calls (UnitType.place_beside E (some u) (some other) s).calls).length
        ≤ (w + 2) * (h + 2) ∧
      (place_calls (UnitType.place_beside E (some u) (some other) s).calls).Nodup) ∧
    (∀ placed, (UnitType.place_beside E (some u) (some other) s).result = some placed →
      ∃ k t, (scan_list E other)[k]? = some t ∧
        (∀ j tj, j < k → (scan_list E other)[j]? = some tj →
          attempt E u other.terrain (scan_world E u other s j) tj = none) ∧
        E.place u other.terrain (E.to_phys3 (scan_world E u other s k) other.terrain t)
            (scan_world E u other s k)
          = (some placed, (UnitType.place_beside E (some u) (some other) s).state) ∧
        (place_calls (UnitType.place_beside E (some u) (some other) s).calls).Sublist
          ((scan_list E other).take (k + 1))) := by
  have hpb : UnitType.place_beside E (some u) (some other) s
      = place_beside_loop E u other.terrain (scan_list E other) s := rfl
  obtain ⟨⟨rest, hpre⟩, hsub⟩ := place_beside_loop_initial E u other.terrain (scan_list E other) s
  rw [← hpb] at hpre hsub
  have hsubl : (place_calls (UnitType.place_beside E (some u) (some other) s).calls).Sublist
      (scan_list E other) := by
    refine hsub.trans ?_
    conv_rhs => rw [hpre]
    exact List.sublist_append_left _ _
  refine ⟨hsubl, hsubl.length_le, ?_, ?_⟩
  · intro w h hE hw hh
    have hlist : scan_list E other = tile_list (outline_of other.pos) := by
      simp only [scan_list, hE]
    have hlen : (scan_list E other).length = (w + 2) * (h + 2) := by
      rw [hlist, tile_list_length]
      simp only [outline_of, coord.tile.add, coord.tile.sub]
      have e1 : (other.pos.end_.ne + 1 - (other.pos.start.ne - 1) + 1).toNat = w + 2 := by omega
      have e2 : (other.pos.end_.se + 1 - (other.pos.start.se - 1) + 1).toNat = h + 2 := by omega
      rw [e1, e2]
    refine ⟨hlen ▸ hsubl.length_le, ?_⟩
    have hnd : (scan_list E other).Nodup := by
      rw [hlist]
      exact tile_list_nodup _
    exact hnd.sublist hsubl
  · intro placed hres
    by_cases hex : ∃ i t, (scan_list E other)[i]? = some t ∧
        (attempt E u other.terrain (scan_world E u other s i) t).isSome = true
    · obtain ⟨k, t, placed1, hk, hprior, _, hp, hres1, hvis⟩ :=
        place_beside_scan_hit E u other s hex
      rw [hres] at hres1
      cases hres1
      refine ⟨k, t, hk, hprior, hp, ?_⟩
      rw [← hvis]
      exact hsub
    · have hall : ∀ i t, (scan_list E other)[i]? = some t →
          attempt E u other.terrain (scan_world E u other s i) t = none := by
        intro i t hit
        rw [← Option.not_isSome_iff_eq_none]
        intro hs
        exact hex ⟨i, t, hit, hs⟩
      have := (place_beside_scan_miss E u other s hall).1
      rw [hres] at this
      exact Option.noConfusion this

/-- C18, at an input: around the `2×2` footprint of the example, in the example
world, `place` is called ten times, which is at most 16, and for no tile
twice. -/
theorem place_beside_cost_witness :
    (place_calls (UnitType.place_beside demo_world (some 0) (some demo_other) 0).calls).length
      ≤ (2 + 2) * (2 + 2) ∧
    (place_calls (UnitType.place_beside demo_world (some 0) (some demo_other) 0).calls).Nodup ∧
    (place_calls (UnitType.place_beside demo_world (some 0) (some demo_other) 0).calls).length
      = 10 :=
  have h := (place_beside_cost demo_world 0 demo_other 0).2.2.1 2 2 rfl (by decide) (by decide)
  ⟨h.1, h.2, by decide⟩

/-- C20: after `NyanType::place`, whether it returned an object or nothing,
the location of the unit is the new `1×1` square with the predicate that
accepts everything, as the placement tried left it: it does not depend on the
location the unit held before, which is gone.  So after a `place_beside` by
the root type that called `place` at least once, and in particular after one
that then returned nothing, the location of the unit is such a new object. -/
theorem nyan_place_replaces_location {T W : Type}
    (tile_list : tile_range → List coord.tile)
    (get_chunk : W → T → coord.tile → Bool)
    (to_phys3 : W → T → coord.tile → coord.phys3)
    (commit : SquareObject T → T → coord.phys3 → object_state → W → Bool × SquareObject T × W)
    (terrain : T) (init_pos : coord.phys3) (w : World T W) (other : TerrainObject T) :
    (NyanType.place commit terrain init_pos w).2.unit.location
      = some (commit NyanType.location_tried terrain init_pos
          object_state.placed w.terrain).2.1 ∧
    (∀ previous,
      (NyanType.place commit terrain init_pos
          { w with unit := { w.unit with location := previous } }).2.unit.location
        = (NyanType.place commit terrain init_pos w).2.unit.location) ∧
    (place_calls (UnitType.place_beside
          (NyanType.collaborators tile_list get_chunk to_phys3 commit)
          (some PUnit.unit) (some other) w).calls ≠ [] →
      ∃ pos wt,
        (UnitType.place_beside (NyanType.collaborators tile_list get_chunk to_phys3 commit)
            (some PUnit.unit) (some other) w).state.unit.location
          = some (commit NyanType.location_tried other.terrain pos
              object_state.placed wt).2.1) := by
  refine ⟨?_, ?_, ?_⟩
  · rw [NyanType.place_eq]
  · intro previous
    rw [NyanType.place_eq, NyanType.place_eq]
  · intro hcalls
    exact place_beside_loop_after_place
      (NyanType.collaborators tile_list get_chunk to_phys3 commit) PUnit.unit other.terrain
      (fun s => ∃ pos wt, s.unit.location
        = some (commit NyanType.location_tried other.terrain pos object_state.placed wt).2.1)
      (fun pos s => ⟨pos, s.terrain, by
        show (NyanType.place commit other.terrain pos s).2.unit.location = _
        rw [NyanType.place_eq]⟩)
      _ w (Or.inr hcalls)

/-- C20, at an input: on the example terrain nothing ever fits; the unit stood
on a `3×3` location; `place_beside` tries all 16 tiles and returns nothing,
and the unit is left with a `1×1` location that stands nowhere. -/
theorem nyan_place_replaces_location_witness :
    (UnitType.place_beside (demo_nyan demo_commit_never)
        (some PUnit.unit) (some demo_other) demo_nyan_world).result.isNone = true ∧
    (place_calls (UnitType.place_beside (demo_nyan demo_commit_never)
        (some PUnit.unit) (some demo_other) demo_nyan_world).calls).length = 16 ∧
    demo_nyan_world.unit.location.map (fun obj => obj.size) = some { ne := 3, se := 3 } ∧
    (UnitType.place_beside (demo_nyan demo_commit_never)
        (some PUnit.unit) (some demo_other) demo_nyan_world).state.unit.location.map
      (fun obj => (obj.size, obj.placement)) = some ({ ne := 1, se := 1 }, none) ∧
    ∃ pos wt,
      (UnitType.place_beside (demo_nyan demo_commit_never)
          (some PUnit.unit) (some demo_other) demo_nyan_world).state.unit.location
        = some (demo_commit_never NyanType.location_tried demo_other.terrain pos
            object_state.placed wt).2.1 :=
  ⟨by decide, by decide, by decide, by decide,
    (nyan_place_replaces_location tile_list (fun _ _ _ => true)
      (fun _ _ t => { ne := t.ne, se := t.se, up := 0 }) demo_commit_never 0
      { ne := 0, se := 0, up := 0 } demo_nyan_world demo_other).2.2 (by decide)⟩

end openage
